import Mathlib

/-!
Shallow embedding of the subgraph-similarity filter subsystem of the
KBExtraction repository, together with theorems settling the frozen claims
about it.

Embedded source files:
- `src/kbdebugger/subgraph_similarity/similarity_filter.py`
  (`relation_to_text`, `quality_to_text`, `SubgraphSimilarityFilter.build_index`,
   `SubgraphSimilarityFilter.filter_qualities`,
   `SubgraphSimilarityFilter.save_similarity_results_json`)
- `src/kbdebugger/subgraph_similarity/index.py` (FAISS-backed `VectorIndex`)
- `src/kbdebugger/subgraph_similarity/index_hnswlib.py` (hnswlib-backed `VectorIndex`)
- `src/kbdebugger/subgraph_similarity/faiss_utils.py`
  (`_as_float32_matrix`, `_as_float32_vector`, `_l2_normalize_rows`)
- `src/kbdebugger/types/base.py` (`GraphRelation` and friends)

Modelling conventions:
- Python floats are modelled as rationals (`ℚ`).  Every claim settled here is
  about comparisons, maxima, masking, ordering and bookkeeping, none of which
  depend on rounding behaviour of IEEE floats.
- NumPy 2-D `float32` arrays are modelled as `List (List ℚ)`; a well-formed
  matrix has rows of one common length (NumPy rejects ragged input in
  `np.asarray(..., dtype=float32)`).
- The external numerical backends (`faiss.IndexFlatIP.search`,
  `hnswlib.Index.knn_query`) and the embedding model are third-party code,
  not part of this repository; they are modelled as explicit function
  parameters, and theorems state the backend contract they are documented to
  satisfy as hypotheses.  `np.sqrt` (inside `np.linalg.norm`) is likewise a
  parameter.
- Python exceptions are modelled with `Except String` or with an explicit
  `Option String` error component.
- I/O side effects (`write_json`, `print`, rich status output) are modelled as
  an explicit trace of `Effect` values returned alongside the result.
-/

/-! ## Data model (`src/kbdebugger/types/base.py`) -/

/-- Model of `GraphEnd`: `{label: str}`. -/
structure GraphEnd where
  label : String
deriving DecidableEq

/-- Model of `EdgeProperties`: an open string-keyed map.  Only the `sentence`
key is read by the embedded code (`relation_to_text`), so values are modelled
as strings (the code applies `str(...)` before use). -/
abbrev EdgeProperties : Type := List (String × String)

/-- Model of Python `props.get(key)`: first binding of the key, if any. -/
def EdgeProperties.get (props : EdgeProperties) (key : String) : Option String :=
  (List.find? (fun p => p.1 = key) props).map (fun p => p.2)

/-- Model of `GraphEdge`: `{label: str, properties: EdgeProperties}`. -/
structure GraphEdge where
  label : String
  properties : EdgeProperties
deriving DecidableEq

/-- Model of `GraphRelation`: `{source, target, edge}`. -/
structure GraphRelation where
  source : GraphEnd
  target : GraphEnd
  edge : GraphEdge
deriving DecidableEq

/-- Model of `Quality = str` (`subgraph_similarity/types.py`). -/
abbrev Quality : Type := String

/-! ## Text shaping (`similarity_filter.py`, lines 60-141)

Strings are manipulated through their character lists so that all definitions
reduce inside the kernel.  `token.replace("_", " ")` with a one-character
pattern is exactly a character map; `str.strip()` removes leading and trailing
whitespace characters. -/

/-- Whitespace test used by Python `str.strip()` (ASCII subset; the labels and
sentences handled by this repository are ASCII text). -/
def pyIsSpace (c : Char) : Bool :=
  c = ' ' || c = '\t' || c = '\n' || c = '\x0d' || c = '\x0b' || c = '\x0c'

/-- Character-list model of `token.replace("_", " ")` for the one-character
pattern `"_"`: replace each underscore character by a space. -/
def replaceUnderscores (cs : List Char) : List Char :=
  cs.map (fun c => if c = '_' then ' ' else c)

/-- Character-list model of Python `str.strip()`: drop leading and trailing
whitespace. -/
def stripEnds (cs : List Char) : List Char :=
  ((cs.dropWhile pyIsSpace).reverse.dropWhile pyIsSpace).reverse

/-- Model of the inner helper `_humanize` of `relation_to_text`:
`token.replace("_", " ").strip()`. -/
def humanize (token : String) : String :=
  String.mk (stripEnds (replaceUnderscores token.data))

/-- Model of the inner helper `_capitalize_sentence` of `relation_to_text`:
`text[:1].upper() + text[1:]` (ASCII uppercase on the first character). -/
def capitalize_sentence (text : String) : String :=
  match text.data with
  | [] => ""
  | c :: cs => String.mk (Char.toUpper c :: cs)

/-- Model of the Python truthiness test `if sentence:` on an optional string:
true exactly when the key is present with a non-empty value. -/
def truthyOpt (o : Option String) : Bool :=
  match o with
  | none => false
  | some s => s ≠ ""

/-- Model of `relation_to_text` (`similarity_filter.py`, lines 74-141).
Prefers a stored non-empty `edge.properties["sentence"]`; otherwise
synthesizes `"{source} {predicate} {target}"` from the humanized labels.
Both branches capitalize the first letter. -/
def relation_to_text (r : GraphRelation) : String :=
  let sentence := EdgeProperties.get r.edge.properties "sentence"
  if truthyOpt sentence then
    capitalize_sentence (humanize (sentence.getD ""))
  else
    capitalize_sentence
      (humanize r.source.label ++ " " ++ humanize r.edge.label ++ " " ++
        humanize r.target.label)

/-- Model of `quality_to_text` (`similarity_filter.py`, lines 60-71): the
identity on quality sentences. -/
def quality_to_text (q : Quality) : Quality := q

/-! ### Claim-text readings of `relation_to_text` (for claim C7)

The claim describes the output as the raw labels (resp. the raw sentence)
with underscores replaced by spaces and the first letter capitalized; these
definitions follow that wording so it can be compared with the source
function above. -/

/-- Synthesized-sentence transformation exactly as worded by claim C7:
interpolate the raw labels, replace underscores by spaces, capitalize the
first letter (no whitespace stripping). -/
def claimSynthText (r : GraphRelation) : String :=
  capitalize_sentence
    (String.mk (replaceUnderscores
      (r.source.label ++ " " ++ r.edge.label ++ " " ++ r.target.label).data))

/-- Stored-sentence transformation exactly as worded by claim C7: the sentence
with underscores replaced by spaces and the first letter capitalized (no
whitespace stripping). -/
def claimSentenceText (s : String) : String :=
  capitalize_sentence (String.mk (replaceUnderscores s.data))

/-- Amended reading of the synthesized branch: each label is humanized
(underscores to spaces, then surrounding whitespace stripped) and the three
humanized labels are joined with single spaces before capitalization. -/
def amendedSynthText (r : GraphRelation) : String :=
  capitalize_sentence
    (humanize r.source.label ++ " " ++ humanize r.edge.label ++ " " ++
      humanize r.target.label)

/-- Amended reading of the stored-sentence branch: the sentence is humanized
(underscores to spaces, then surrounding whitespace stripped) before
capitalization. -/
def amendedSentenceText (s : String) : String :=
  capitalize_sentence (humanize s)

/-! ## Stable descending sort

Model of the Python calls `kept.sort(key=lambda x: x["max_score"], reverse=True)`
and `dropped.sort(...)` (`similarity_filter.py`, lines 350-351).  CPython
`list.sort` is a stable sort; with `reverse=True` the result is exactly
characterized by three properties: it is a permutation of the input, it is
non-increasing in the key, and elements with equal keys keep their original
relative order.  Those three properties determine the output uniquely, so the
insertion sort below (which satisfies all three, proved next) is extensionally
the CPython sort. -/

/-- Insert `x` into `l` in front of the first element whose key is `≤ key x`;
elements with a strictly greater key stay in front of `x`, elements with an
equal key that were inserted earlier (later in the original list) end up
behind `x`. -/
def insDesc (key : α → ℚ) (x : α) : List α → List α
  | [] => [x]
  | y :: ys => if key y ≤ key x then x :: y :: ys else y :: insDesc key x ys

/-- Stable insertion sort, descending in `key`. -/
def sortDesc (key : α → ℚ) : List α → List α
  | [] => []
  | x :: xs => insDesc key x (sortDesc key xs)

theorem insDesc_perm (key : α → ℚ) (x : α) (l : List α) :
    List.Perm (insDesc key x l) (x :: l) := by
  induction l with
  | nil => simp [insDesc]
  | cons y ys ih =>
    by_cases h : key y ≤ key x
    · simp [insDesc, h]
    · simp only [insDesc, if_neg h]
      exact (ih.cons y).trans (List.Perm.swap x y ys)

theorem sortDesc_perm (key : α → ℚ) (l : List α) :
    List.Perm (sortDesc key l) l := by
  induction l with
  | nil => simp [sortDesc]
  | cons x xs ih =>
    exact (insDesc_perm key x (sortDesc key xs)).trans (ih.cons x)

theorem insDesc_sorted (key : α → ℚ) (x : α) (l : List α)
    (h : l.Pairwise (fun a b => key b ≤ key a)) :
    (insDesc key x l).Pairwise (fun a b => key b ≤ key a) := by
  induction l with
  | nil => simp [insDesc]
  | cons y ys ih =>
    rcases List.pairwise_cons.mp h with ⟨hy, hys⟩
    by_cases hxy : key y ≤ key x
    · rw [insDesc, if_pos hxy]
      refine List.pairwise_cons.mpr ⟨?_, h⟩
      intro b hb
      rcases List.mem_cons.mp hb with rfl | hb
      · exact hxy
      · exact le_trans (hy b hb) hxy
    · rw [insDesc, if_neg hxy]
      refine List.pairwise_cons.mpr ⟨?_, ih hys⟩
      intro b hb
      have hb2 := (insDesc_perm key x ys).mem_iff.mp hb
      rcases List.mem_cons.mp hb2 with rfl | hb2
      · exact le_of_not_le hxy
      · exact hy b hb2

theorem sortDesc_sorted (key : α → ℚ) (l : List α) :
    (sortDesc key l).Pairwise (fun a b => key b ≤ key a) := by
  induction l with
  | nil => simp [sortDesc]
  | cons x xs ih => exact insDesc_sorted key x (sortDesc key xs) ih

theorem insDesc_filter_eq (key : α → ℚ) (x : α) (l : List α) (c : ℚ)
    (hx : key x = c) :
    (insDesc key x l).filter (fun a => decide (key a = c)) =
      x :: l.filter (fun a => decide (key a = c)) := by
  induction l with
  | nil => simp [insDesc, hx]
  | cons y ys ih =>
    by_cases hxy : key y ≤ key x
    · rw [insDesc, if_pos hxy]
      simp [List.filter_cons, hx]
    · have hyc : ¬ key y = c := by
        intro hyc
        exact hxy (le_of_eq (hyc.trans hx.symm))
      rw [insDesc, if_neg hxy]
      simp [List.filter_cons, hyc, ih]

theorem insDesc_filter_ne (key : α → ℚ) (x : α) (l : List α) (c : ℚ)
    (hx : key x ≠ c) :
    (insDesc key x l).filter (fun a => decide (key a = c)) =
      l.filter (fun a => decide (key a = c)) := by
  induction l with
  | nil => simp [insDesc, hx]
  | cons y ys ih =>
    by_cases hxy : key y ≤ key x
    · rw [insDesc, if_pos hxy]
      simp [List.filter_cons, hx]
    · rw [insDesc, if_neg hxy]
      simp [List.filter_cons, ih]

/-- Stability of the sort: for every key value `c`, the elements whose key is
`c` appear in the sorted output in exactly their original input order. -/
theorem sortDesc_filter (key : α → ℚ) (l : List α) (c : ℚ) :
    (sortDesc key l).filter (fun a => decide (key a = c)) =
      l.filter (fun a => decide (key a = c)) := by
  induction l with
  | nil => simp [sortDesc]
  | cons x xs ih =>
    by_cases hx : key x = c
    · rw [sortDesc, insDesc_filter_eq key x _ c hx, ih]
      simp [List.filter_cons, hx]
    · rw [sortDesc, insDesc_filter_ne key x _ c hx, ih]
      simp [List.filter_cons, hx]

theorem sortDesc_mem (key : α → ℚ) (l : List α) (a : α) :
    a ∈ sortDesc key l ↔ a ∈ l :=
  (sortDesc_perm key l).mem_iff

/-! ## Matrix utilities (`faiss_utils.py`)

A NumPy 2-D `float32` matrix is a `List (List ℚ)` with a common row length.
`np.asarray` of an empty list yields a 1-D array of shape `(0,)` and
`np.asarray` of ragged rows does not form a 2-D numeric array, so both fail
the `ndim != 2` check of `_as_float32_matrix`. -/

/-- Model of `_as_float32_matrix` (`faiss_utils.py`, lines 6-31): returns the
matrix together with its second dimension `shape[1]`, or an error when the
input is not a 2-D matrix. -/
def as_float32_matrix (x : List (List ℚ)) : Except String (List (List ℚ) × Nat) :=
  match x with
  | [] => .error "matrix must be a 2D array of shape (N, D)"
  | r :: rs =>
    if rs.all (fun row => row.length = r.length) then .ok (x, r.length)
    else .error "matrix must be a 2D array of shape (N, D)"

/-- Model of `_as_float32_vector` (`faiss_utils.py`, lines 34-62): a flat
vector must have exactly `dim` entries. -/
def as_float32_vector (x : List ℚ) (dim : Nat) : Except String (List ℚ) :=
  if x.length = dim then .ok x
  else .error "vector must have shape (dim,)"

/-- Model of the squared L2 norm of one row: the value whose square root
`np.linalg.norm(x, axis=1)` computes. -/
def rowNormSq (v : List ℚ) : ℚ := (v.map (fun a => a * a)).sum

/-- Model of the effective divisor used for one row by `_l2_normalize_rows`:
the row norm after the guard `np.where(norms == 0.0, 1.0, norms)`.  `sqrt` is
the abstract square-root function of `np.linalg.norm`. -/
def effNorm (sqrt : ℚ → ℚ) (v : List ℚ) : ℚ :=
  if sqrt (rowNormSq v) = 0 then 1 else sqrt (rowNormSq v)

/-- Model of `_l2_normalize_rows` (`faiss_utils.py`, lines 65-92): compute the
row norms, replace zero norms by one, and divide each row entrywise by its
(guarded) norm. -/
def l2_normalize_rows (sqrt : ℚ → ℚ) (x : List (List ℚ)) : List (List ℚ) :=
  x.map (fun row => row.map (fun a => a / effNorm sqrt row))

/-! ## FAISS-backed `VectorIndex` (`index.py`)

`faiss.IndexFlatIP` is third-party code; its `search` method is modelled as an
abstract function of the stored vectors, the (already normalized) query
matrix and `k`, returning a score matrix and an ID matrix of shape `(Q, k)`
in which the ID `-1` marks an under-filled slot. -/

/-- Raw output of the external `faiss.Index.search` call: `scores` (inner
products) and `ids` (neighbor IDs, `-1` for missing slots). -/
structure RawSearchResult where
  scores : List (List ℚ)
  ids : List (List Int)

/-- Abstract behaviour of `faiss.IndexFlatIP.search`: stored vectors, query
matrix, `k` ↦ raw result. -/
def FaissBackend : Type := List (List ℚ) → List (List ℚ) → Nat → RawSearchResult

/-- Model of the FAISS-backed `VectorIndex` dataclass (`index.py`): the fixed
dimension, the vectors handed to the backend in insertion order, and the
parallel payload list (`payloads[i]` belongs to vector ID `i`). -/
structure VectorIndex (T : Type) where
  dim : Nat
  stored : List (List ℚ)
  payloads : List T

/-- Model of `VectorIndex.create` (`index.py`, lines 127-169): a fresh empty
index.  `max_elements` is kept for API compatibility and ignored, because
`IndexFlatIP` grows dynamically. -/
def VectorIndex.create (T : Type) (dim : Nat) (_max_elements : Nat) : VectorIndex T :=
  { dim := dim, stored := [], payloads := [] }

/-- Model of `VectorIndex.add` (`index.py`, lines 174-220).  The result pairs
an optional error (a raised `ValueError`) with the index state after the
call; the two `raise` statements execute before `self.index.add` and
`self.payloads.extend`, so on error the state is the unchanged input state. -/
def VectorIndex.add (idx : VectorIndex T) (sqrt : ℚ → ℚ)
    (vectors : List (List ℚ)) (items : List T) :
    Option String × VectorIndex T :=
  match as_float32_matrix vectors with
  | .error e => (some e, idx)
  | .ok (matrix, width) =>
    if width ≠ idx.dim then
      (some "Shape mismatch: expected vectors of shape (N, dim)", idx)
    else if matrix.length ≠ items.length then
      (some "Number of vectors must match number of payload items.", idx)
    else
      (none,
        { idx with
          stored := idx.stored ++ l2_normalize_rows sqrt matrix,
          payloads := idx.payloads ++ items })

/-- Model of one score row after the sentinel masking
`scores[invalid_mask] = 0.0`: slots whose ID is negative are forced to `0`.
The source guards the assignment with `if np.any(invalid_mask)`, which is
extensionally the identity when no slot is invalid. -/
def maskScoresRow (idRow : List Int) (scoreRow : List ℚ) : List ℚ :=
  (idRow.zip scoreRow).map (fun p => if p.1 < 0 then 0 else p.2)

/-- Sentinel masking applied to the whole `(Q, k)` score matrix. -/
def maskScores (ids : List (List Int)) (scores : List (List ℚ)) : List (List ℚ) :=
  (ids.zip scores).map (fun p => maskScoresRow p.1 p.2)

/-- Model of the payload-collection loop over one ID row: skip negative IDs,
map the rest through `self.payloads[int(idx)]` (an out-of-range ID raises
`IndexError`). -/
def lookupValidPayloads (payloads : List T) : List Int → Except String (List T)
  | [] => .ok []
  | id :: rest =>
    if id < 0 then lookupValidPayloads payloads rest
    else
      match payloads.get? id.toNat with
      | none => .error "IndexError: list index out of range"
      | some p => (lookupValidPayloads payloads rest).map (fun l => p :: l)

/-- Payload collection over all ID rows. -/
def lookupRows (payloads : List T) : List (List Int) → Except String (List (List T))
  | [] => .ok []
  | row :: rest =>
    match lookupValidPayloads payloads row with
    | .error e => .error e
    | .ok r =>
      match lookupRows payloads rest with
      | .error e => .error e
      | .ok rs => .ok (r :: rs)

/-- Pure characterization of a successful payload collection: the payloads of
the non-negative in-range IDs, in row order. -/
def validPayloads (payloads : List T) (idRow : List Int) : List T :=
  idRow.filterMap (fun id => if id < 0 then none else payloads.get? id.toNat)

/-- Model of `VectorIndex.search_batch` (`index.py`, lines 271-363): validate
the query matrix, short-circuit `k <= 0`, L2-normalize the queries, call the
backend once, map IDs to payloads (omitting `-1` slots) and mask the scores
of invalid slots to `0`. -/
def VectorIndex.search_batch (idx : VectorIndex T) (backend : FaissBackend)
    (sqrt : ℚ → ℚ) (query_vecs : List (List ℚ)) (k : Int) :
    Except String (List (List T) × List (List ℚ)) :=
  match as_float32_matrix query_vecs with
  | .error e => .error e
  | .ok (q, width) =>
    if width ≠ idx.dim then
      .error "Shape mismatch: expected query_vecs of shape (Q, dim)"
    else if k ≤ 0 then
      .ok (List.replicate q.length [], List.replicate q.length [])
    else
      let raw := backend idx.stored (l2_normalize_rows sqrt q) k.toNat
      match lookupRows idx.payloads raw.ids with
      | .error e => .error e
      | .ok neighbors => .ok (neighbors, maskScores raw.ids raw.scores)

/-- Model of `VectorIndex.search` (`index.py`, lines 225-266): the
single-query convenience wrapper.  The alignment loop
`for i in range(min(len(row_neighbors), len(row_scores)))` is exactly
`List.zip`, which truncates at the shorter list. -/
def VectorIndex.search (idx : VectorIndex T) (backend : FaissBackend)
    (sqrt : ℚ → ℚ) (query_vec : List ℚ) (k : Int) :
    Except String (List (T × ℚ)) :=
  if k ≤ 0 then .ok []
  else
    match as_float32_vector query_vec idx.dim with
    | .error e => .error e
    | .ok qv =>
      match idx.search_batch backend sqrt [qv] k with
      | .error e => .error e
      | .ok (neighbors, scores) => .ok ((neighbors.headD []).zip (scores.headD []))

/-- Row-0 unpacking of a batched search result, as performed by the wrapper:
pair the row-0 payloads with the row-0 scores, truncating at the shorter
list. -/
def unpackRow0 (res : List (List T) × List (List ℚ)) : List (T × ℚ) :=
  (res.1.headD []).zip (res.2.headD [])

/-! ## hnswlib-backed `VectorIndex` (`index_hnswlib.py`)

The hnswlib graph structure is third-party code; its `knn_query` method is
modelled as an abstract function carried inside the index value (queries, `k`
↦ labels and cosine distances).  The claims settled here only concern the
query-time wrapper code, which never mutates the structure. -/

/-- Raw output of the external `hnswlib.Index.knn_query` call: `labels`
(internal IDs, `-1` when fewer than `k` neighbors exist) and `distances`
(cosine distances `1 - similarity`). -/
structure KnnRawResult where
  labels : List (List Int)
  distances : List (List ℚ)

/-- Model of the hnswlib-backed `VectorIndex` dataclass
(`index_hnswlib.py`): the dimension, the abstract `knn_query` behaviour of
the underlying `hnswlib.Index`, and the payload list. -/
structure HnswVectorIndex (T : Type) where
  dim : Nat
  knn : List (List ℚ) → Nat → KnnRawResult
  payloads : List T

/-- Model of the result loop of the hnswlib `search` (`index_hnswlib.py`,
lines 232-245): walk `zip(labels[0], distances[0])`, skip negative IDs, and
emit `(payload, 1.0 - dist)` pairs (an out-of-range ID raises `IndexError`). -/
def hnswCollectPairs (payloads : List T) : List (Int × ℚ) → Except String (List (T × ℚ))
  | [] => .ok []
  | (id, dist) :: rest =>
    if id < 0 then hnswCollectPairs payloads rest
    else
      match payloads.get? id.toNat with
      | none => .error "IndexError: list index out of range"
      | some p => (hnswCollectPairs payloads rest).map (fun l => (p, 1 - dist) :: l)

/-- Model of the hnswlib `VectorIndex.search` (`index_hnswlib.py`, lines
187-245).  Unlike the FAISS wrapper it does not call `search_batch`: it
reshapes the query to a one-row matrix, calls `knn_query` directly and
converts distances with its own sentinel-skipping loop. -/
def HnswVectorIndex.search (idx : HnswVectorIndex T) (query_vec : List ℚ)
    (k : Int) : Except String (List (T × ℚ)) :=
  if k ≤ 0 then .ok []
  else
    let raw := idx.knn [query_vec] k.toNat
    hnswCollectPairs idx.payloads ((raw.labels.headD []).zip (raw.distances.headD []))

/-- Model of the hnswlib `VectorIndex.search_batch` (`index_hnswlib.py`,
lines 248-323): short-circuit `k <= 0`, validate the query matrix, call
`knn_query` once, convert distances to similarities `1 - dist`, collect
payloads of non-negative labels, and mask the scores of invalid labels to
`0`. -/
def HnswVectorIndex.search_batch (idx : HnswVectorIndex T)
    (query_vecs : List (List ℚ)) (k : Int) :
    Except String (List (List T) × List (List ℚ)) :=
  if k ≤ 0 then
    .ok (List.replicate query_vecs.length [], List.replicate query_vecs.length [])
  else
    match as_float32_matrix query_vecs with
    | .error e => .error e
    | .ok (q, width) =>
      if width ≠ idx.dim then
        .error "Shape mismatch: expected query_vecs of shape (Q, dim)"
      else
        let raw := idx.knn q k.toNat
        let sims := raw.distances.map (fun row => row.map (fun d => 1 - d))
        match lookupRows idx.payloads raw.labels with
        | .error e => .error e
        | .ok neighbors => .ok (neighbors, maskScores raw.labels sims)

/-! ## Similarity filter (`similarity_filter.py`)

The encoder is an injected collaborator (`TextEncoder`, a pluggable embedding
model); it is modelled as a dimension together with an abstract batch-encode
function. -/

/-- Model of the injected `TextEncoder` collaborator: a fixed dimension and a
deterministic batch-encode function `texts ↦ (N, dim) matrix`. -/
structure Encoder where
  dim : Nat
  encode : List String → List (List ℚ)

/-- Observable side effects of the filter component, as an explicit trace:
rich console status output, the JSON artifact write performed by
`write_json`, and the `print` call of `save_similarity_results_json`. -/
inductive Effect where
  | consoleStatus (msg : String)
  | writeJson (path : String)
  | stdoutPrint (msg : String)
deriving DecidableEq

/-- Model of `NeighborHit` (`subgraph_similarity/types.py`). -/
structure NeighborHit (T : Type) where
  relation : T
  score : ℚ
deriving DecidableEq

/-- Model of `KeptQuality` (`subgraph_similarity/types.py`). -/
structure KeptQuality (T : Type) where
  quality : Quality
  max_score : ℚ
  neighbors : List (NeighborHit T)
deriving DecidableEq

/-- Model of `DroppedQuality` (`subgraph_similarity/types.py`). -/
structure DroppedQuality where
  quality : Quality
  max_score : ℚ
deriving DecidableEq

/-- Model of the `SubgraphSimilarityFilter` dataclass fields used by the
algorithms: the injected encoder, `top_k` and `threshold` (the `console`
field only affects pretty-printing). -/
structure SubgraphSimilarityFilter where
  encoder : Encoder
  top_k : Int
  threshold : ℚ

/-- Model of `SubgraphSimilarityFilter.build_index` (`similarity_filter.py`,
lines 189-234): reject empty `relations`, embed one sentence per relation,
create a fresh index sized to `len(relations)`, and add all vectors with the
relations as payloads (a `ValueError` raised by `add` propagates). -/
def SubgraphSimilarityFilter.build_index (f : SubgraphSimilarityFilter)
    (sqrt : ℚ → ℚ) (relations : List GraphRelation) :
    Except String (VectorIndex GraphRelation) :=
  if relations.isEmpty then
    .error "Cannot build vector index: relations is empty."
  else
    let texts := relations.map relation_to_text
    let vectors := f.encoder.encode texts
    let index := VectorIndex.create GraphRelation f.encoder.dim relations.length
    match index.add sqrt vectors relations with
    | (some e, _) => .error e
    | (none, idx) => .ok idx

/-- Model of the vectorized max computation (`similarity_filter.py`, lines
314-317): `np.zeros(len(qualities))` when the score matrix is empty
(`scores.size == 0`), otherwise `scores.max(axis=1)`. -/
def rowMax : List ℚ → ℚ
  | [] => 0
  | a :: rest => rest.foldl max a

/-- Model of `max_scores` for a `(Q, k)` score matrix. -/
def computeMaxScores (numQualities : Nat) (scores : List (List ℚ)) : List ℚ :=
  if (scores.map List.length).sum = 0 then List.replicate numQualities 0
  else scores.map rowMax

/-- Model of the assembly loop (`similarity_filter.py`, lines 325-348) over
rows `(quality, max_score, neighbors_row, scores_row)`: a quality is dropped
when `not (max_score >= threshold)`, i.e. `max_score < threshold`; a kept
quality carries the aligned neighbor pairs, where the alignment
`min(len(neighs), len(row_scores))` is exactly `List.zip`. -/
def assemble (threshold : ℚ) :
    List (Quality × ℚ × List T × List ℚ) →
      List (KeptQuality T) × List DroppedQuality
  | [] => ([], [])
  | (q, ms, neighs, rowScores) :: rest =>
    let tail := assemble threshold rest
    if ms < threshold then
      (tail.1, { quality := q, max_score := ms } :: tail.2)
    else
      ({ quality := q, max_score := ms,
         neighbors := (neighs.zip rowScores).map (fun p => ⟨p.1, p.2⟩) } :: tail.1,
        tail.2)

/-- Rows consumed by the assembly loop.  The Python loop runs
`for i, q in enumerate(qualities)` and indexes `max_scores[i]`,
`neighbors_per_q[i]`, `scores[i]`; for the shapes produced by one successful
`search_batch` call over the encoded qualities these lists all have the same
length, where this zip is the exact index-aligned pairing. -/
def buildRows (qualities : List Quality) (maxScores : List ℚ)
    (neighbors : List (List T)) (scores : List (List ℚ)) :
    List (Quality × ℚ × List T × List ℚ) :=
  (qualities.zip (maxScores.zip (neighbors.zip scores))).map
    (fun p => (p.1, p.2.1, p.2.2.1, p.2.2.2))

/-- Model of `SubgraphSimilarityFilter.filter_qualities`
(`similarity_filter.py`, lines 239-354) together with its observable effect
trace.  `created_at` models the `now_utc_compact()` clock reading used by
`save_similarity_results_json` to name the JSON artifact.  A non-empty run
performs, in order: the rich status output around the batched search, the
`write_json` file write, and the `print` of the info line. -/
def SubgraphSimilarityFilter.filter_qualities (f : SubgraphSimilarityFilter)
    (idx : VectorIndex GraphRelation) (backend : FaissBackend) (sqrt : ℚ → ℚ)
    (created_at : String) (qualities : List Quality) :
    Except String
      ((List (KeptQuality GraphRelation) × List DroppedQuality) × List Effect) :=
  if qualities.isEmpty then .ok (([], []), [])
  else
    let texts := qualities.map quality_to_text
    let vectors := f.encoder.encode texts
    match idx.search_batch backend sqrt vectors f.top_k with
    | .error e => .error e
    | .ok (neighbors_per_q, scores) =>
      let max_scores := computeMaxScores qualities.length scores
      let pre := assemble f.threshold (buildRows qualities max_scores neighbors_per_q scores)
      let kept := sortDesc (fun x => x.max_score) pre.1
      let dropped := sortDesc (fun x => x.max_score) pre.2
      let path := "logs/03_vector_similarity_filter_results_" ++ created_at ++ ".json"
      .ok ((kept, dropped),
        [Effect.consoleStatus "Performing batch vector similarity search:",
          Effect.writeJson path,
          Effect.stdoutPrint ("[INFO] Wrote vector similarity results to " ++ path)])

/-! ## Supporting lemmas -/

/-- Decidable equality of `Except` results, used to evaluate concrete runs. -/
instance {ε α : Type} [DecidableEq ε] [DecidableEq α] : DecidableEq (Except ε α) := fun x y => by
  cases x <;> cases y
  case error.error a b => exact decidable_of_iff (a = b) (by simp)
  case error.ok a b => exact isFalse (fun hc => Except.noConfusion hc)
  case ok.error a b => exact isFalse (fun hc => Except.noConfusion hc)
  case ok.ok a b => exact decidable_of_iff (a = b) (by simp)

theorem lookupValidPayloads_ok {T : Type} (payloads : List T) (idRow : List Int)
    (hbound : ∀ id ∈ idRow, 0 ≤ id → id.toNat < payloads.length) :
    lookupValidPayloads payloads idRow = .ok (validPayloads payloads idRow) := by
  induction idRow with
  | nil => rfl
  | cons id rest ih =>
    have hrest : ∀ i ∈ rest, 0 ≤ i → i.toNat < payloads.length :=
      fun i hi => hbound i (List.mem_cons_of_mem id hi)
    by_cases hid : id < 0
    · simp [lookupValidPayloads, validPayloads, List.filterMap_cons, hid, ih hrest,
        validPayloads.eq_def]
    · have hlt : id.toNat < payloads.length :=
        hbound id (List.mem_cons_self id rest) (le_of_not_lt hid)
      obtain ⟨p, hp⟩ : ∃ p, payloads[id.toNat]? = some p :=
        ⟨_, List.getElem?_eq_getElem hlt⟩
      simp [lookupValidPayloads, validPayloads, List.filterMap_cons, hid, hp, ih hrest,
        validPayloads.eq_def, Except.map]

theorem lookupRows_ok {T : Type} (payloads : List T) (ids : List (List Int))
    (hbound : ∀ row ∈ ids, ∀ id ∈ row, 0 ≤ id → id.toNat < payloads.length) :
    lookupRows payloads ids = .ok (ids.map (validPayloads payloads)) := by
  induction ids with
  | nil => rfl
  | cons row rest ih =>
    have hrow := hbound row (List.mem_cons_self row rest)
    have hrest : ∀ r ∈ rest, ∀ id ∈ r, 0 ≤ id → id.toNat < payloads.length :=
      fun r hr => hbound r (List.mem_cons_of_mem row hr)
    simp [lookupRows, lookupValidPayloads_ok payloads row hrow, ih hrest]

/-- Shared computation lemma: a `search_batch` call on the FAISS-backed index
whose query matrix validates, with `k > 0` and in-range backend IDs, returns
exactly the payload rows of the valid IDs and the sentinel-masked score
matrix. -/
theorem search_batch_ok {T : Type} (idx : VectorIndex T) (backend : FaissBackend)
    (sqrt : ℚ → ℚ) (query_vecs q : List (List ℚ)) (width : Nat) (k : Int)
    (hmat : as_float32_matrix query_vecs = .ok (q, width))
    (hw : width = idx.dim) (hk : 0 < k)
    (hbound : ∀ row ∈ (backend idx.stored (l2_normalize_rows sqrt q) k.toNat).ids,
        ∀ id ∈ row, 0 ≤ id → id.toNat < idx.payloads.length) :
    idx.search_batch backend sqrt query_vecs k =
      .ok ((backend idx.stored (l2_normalize_rows sqrt q) k.toNat).ids.map
              (validPayloads idx.payloads),
           maskScores (backend idx.stored (l2_normalize_rows sqrt q) k.toNat).ids
              (backend idx.stored (l2_normalize_rows sqrt q) k.toNat).scores) := by
  rw [VectorIndex.search_batch, hmat]
  simp only [hw, ne_eq, not_true_eq_false, if_false, if_neg (not_le_of_lt hk),
    lookupRows_ok idx.payloads _ hbound]

/-- Length of one masked score row: the common length of the ID row and the
raw score row. -/
theorem maskScoresRow_length (idRow : List Int) (scoreRow : List ℚ) :
    (maskScoresRow idRow scoreRow).length = min idRow.length scoreRow.length := by
  simp [maskScoresRow]

/-- Slot-level description of the masking: sentinel slots are forced to `0`,
valid slots keep the backend score. -/
theorem maskScoresRow_getD (idRow : List Int) (scoreRow : List ℚ) (j : Nat)
    (hj1 : j < idRow.length) (hj2 : j < scoreRow.length) :
    (maskScoresRow idRow scoreRow).getD j 0 =
      if idRow.getD j 0 < 0 then 0 else scoreRow.getD j 0 := by
  have hj : j < (maskScoresRow idRow scoreRow).length := by
    rw [maskScoresRow_length]
    exact lt_min hj1 hj2
  have hz : j < (idRow.zip scoreRow).length := by
    simpa [maskScoresRow] using hj
  rw [List.getD_eq_getElem _ _ hj, List.getD_eq_getElem _ _ hj1,
    List.getD_eq_getElem _ _ hj2]
  simp [maskScoresRow, List.getElem_zip]

/-- Every payload in a `validPayloads` row comes from a non-negative ID of the
ID row. -/
theorem validPayloads_mem {T : Type} (payloads : List T) (idRow : List Int)
    (p : T) (hp : p ∈ validPayloads payloads idRow) :
    ∃ id ∈ idRow, 0 ≤ id ∧ payloads[id.toNat]? = some p := by
  rcases List.mem_filterMap.mp hp with ⟨id, hid, hf⟩
  by_cases h : id < 0
  · rw [if_pos h] at hf
    exact absurd hf (by simp)
  · rw [if_neg h] at hf
    exact ⟨id, hid, le_of_not_lt h, (List.get?_eq_getElem? payloads id.toNat).symm.trans hf⟩

/-- Shared computation lemma for the hnswlib backend: a validating
`search_batch` call with `k > 0` and in-range labels returns the payload rows
of the valid labels and the masked similarity matrix `1 - distance`. -/
theorem hnsw_search_batch_ok {T : Type} (idx : HnswVectorIndex T)
    (query_vecs q : List (List ℚ)) (width : Nat) (k : Int)
    (hmat : as_float32_matrix query_vecs = .ok (q, width))
    (hw : width = idx.dim) (hk : 0 < k)
    (hbound : ∀ row ∈ (idx.knn q k.toNat).labels,
        ∀ id ∈ row, 0 ≤ id → id.toNat < idx.payloads.length) :
    idx.search_batch query_vecs k =
      .ok ((idx.knn q k.toNat).labels.map (validPayloads idx.payloads),
           maskScores (idx.knn q k.toNat).labels
             ((idx.knn q k.toNat).distances.map (fun row => row.map (fun d => 1 - d)))) := by
  rw [HnswVectorIndex.search_batch, if_neg (not_le_of_lt hk), hmat]
  simp only [hw, ne_eq, not_true_eq_false, if_false, lookupRows_ok idx.payloads _ hbound]

/-- Every row of a masked score matrix is the masking of an ID row and a raw
score row drawn from the two matrices. -/
theorem maskScores_mem_structure (ids : List (List Int)) (scores : List (List ℚ))
    (row : List ℚ) (h : row ∈ maskScores ids scores) :
    ∃ irow ∈ ids, ∃ srow ∈ scores, row = maskScoresRow irow srow := by
  rcases List.mem_map.mp h with ⟨p, hp, hrow⟩
  rcases List.of_mem_zip hp with ⟨hi, hs⟩
  exact ⟨p.1, hi, p.2, hs, hrow.symm⟩

/-- Claim C4: for every batch of queries and every `k > 0` (in particular
when the index holds fewer than `k` entries), `search_batch` of both backends
returns the sentinel-masked score matrix of shape `(Q, k)` — every slot whose
backend ID is the invalid sentinel `-1` carries exactly `0`, every valid slot
keeps the backend score — and the neighbor lists omit the sentinel slots,
containing only payloads of valid IDs. -/
theorem c4_sentinel_masking {T : Type}
    (idxF : VectorIndex T) (backend : FaissBackend) (sqrt : ℚ → ℚ)
    (idxH : HnswVectorIndex T)
    (query_vecs q query_vecs2 q2 : List (List ℚ)) (width width2 : Nat) (k : Int)
    (hmat : as_float32_matrix query_vecs = .ok (q, width))
    (hw : width = idxF.dim) (hk : 0 < k)
    (hboundF : ∀ row ∈ (backend idxF.stored (l2_normalize_rows sqrt q) k.toNat).ids,
        ∀ id ∈ row, 0 ≤ id → id.toNat < idxF.payloads.length)
    (hshapeF1 : (backend idxF.stored (l2_normalize_rows sqrt q) k.toNat).ids.length = q.length)
    (hshapeF2 : (backend idxF.stored (l2_normalize_rows sqrt q) k.toNat).scores.length = q.length)
    (hrowsF1 : ∀ row ∈ (backend idxF.stored (l2_normalize_rows sqrt q) k.toNat).ids,
        row.length = k.toNat)
    (hrowsF2 : ∀ row ∈ (backend idxF.stored (l2_normalize_rows sqrt q) k.toNat).scores,
        row.length = k.toNat)
    (hmat2 : as_float32_matrix query_vecs2 = .ok (q2, width2))
    (hw2 : width2 = idxH.dim)
    (hboundH : ∀ row ∈ (idxH.knn q2 k.toNat).labels,
        ∀ id ∈ row, 0 ≤ id → id.toNat < idxH.payloads.length) :
    (idxF.search_batch backend sqrt query_vecs k =
      .ok ((backend idxF.stored (l2_normalize_rows sqrt q) k.toNat).ids.map
              (validPayloads idxF.payloads),
           maskScores (backend idxF.stored (l2_normalize_rows sqrt q) k.toNat).ids
              (backend idxF.stored (l2_normalize_rows sqrt q) k.toNat).scores)) ∧
    (idxH.search_batch query_vecs2 k =
      .ok ((idxH.knn q2 k.toNat).labels.map (validPayloads idxH.payloads),
           maskScores (idxH.knn q2 k.toNat).labels
             ((idxH.knn q2 k.toNat).distances.map (fun row => row.map (fun d => 1 - d))))) ∧
    ((maskScores (backend idxF.stored (l2_normalize_rows sqrt q) k.toNat).ids
        (backend idxF.stored (l2_normalize_rows sqrt q) k.toNat).scores).length = q.length ∧
      ∀ row ∈ maskScores (backend idxF.stored (l2_normalize_rows sqrt q) k.toNat).ids
          (backend idxF.stored (l2_normalize_rows sqrt q) k.toNat).scores,
        row.length = k.toNat) ∧
    (∀ (idRow : List Int) (scoreRow : List ℚ) (j : Nat),
        j < idRow.length → j < scoreRow.length →
        (idRow.getD j 0 = -1 → (maskScoresRow idRow scoreRow).getD j 0 = 0) ∧
        (0 ≤ idRow.getD j 0 →
          (maskScoresRow idRow scoreRow).getD j 0 = scoreRow.getD j 0)) ∧
    (∀ (payloads : List T) (idRow : List Int), ∀ p ∈ validPayloads payloads idRow,
        ∃ id ∈ idRow, 0 ≤ id ∧ payloads[id.toNat]? = some p) := by
  refine ⟨search_batch_ok idxF backend sqrt query_vecs q width k hmat hw hk hboundF,
    hnsw_search_batch_ok idxH query_vecs2 q2 width2 k hmat2 hw2 hk hboundH, ⟨?_, ?_⟩, ?_, ?_⟩
  · simp [maskScores, List.length_zip, hshapeF1, hshapeF2]
  · intro row hrow
    rcases maskScores_mem_structure _ _ row hrow with ⟨irow, hi, srow, hs, hrw⟩
    rw [hrw, maskScoresRow_length, hrowsF1 irow hi, hrowsF2 srow hs, min_self]
  · intro idRow scoreRow j hj1 hj2
    constructor
    · intro hneg
      rw [maskScoresRow_getD idRow scoreRow j hj1 hj2, if_pos (by rw [hneg]; decide)]
    · intro hpos
      rw [maskScoresRow_getD idRow scoreRow j hj1 hj2, if_neg (not_lt_of_le hpos)]
  · intro payloads idRow p hp
    rcases validPayloads_mem payloads idRow p hp with ⟨id, hid, hpos, hsome⟩
    exact ⟨id, hid, hpos, hsome⟩


/-- Witness for claim C4: a concrete under-filled search (one stored payload,
`k = 2`) on both backends; the sentinel slot is masked to exactly `0` and its
payload is omitted from the neighbor list. -/
theorem c4_sentinel_masking_witness :
    (VectorIndex.search_batch ⟨1, [[1]], ["A"]⟩
        (fun _ _ _ => ⟨[[7, 3]], [[0, -1]]⟩) (fun x => x) [[1]] 2 =
      .ok ([["A"]], [[7, 0]])) ∧
    (HnswVectorIndex.search_batch ⟨1, fun _ _ => ⟨[[0, -1]], [[-6, 3]]⟩, ["A"]⟩
        [[1]] 2 =
      .ok ([["A"]], [[7, 0]])) := by
  have h := c4_sentinel_masking (T := String) ⟨1, [[1]], ["A"]⟩
      (fun _ _ _ => ⟨[[7, 3]], [[0, -1]]⟩) (fun x => x)
      ⟨1, fun _ _ => ⟨[[0, -1]], [[-6, 3]]⟩, ["A"]⟩
      [[1]] [[1]] [[1]] [[1]] 1 1 2 (by decide) (by decide) (by decide)
      (by decide) (by decide) (by decide) (by decide) (by decide)
      (by decide) (by decide) (by decide)
  constructor
  · rw [h.1]
    decide
  · rw [h.2.1]
    simp [validPayloads, maskScores, maskScoresRow]
    norm_num

/-- Claim C10: `VectorIndex.add` is atomic on failure — on a dimension
mismatch or a vectors/payloads count mismatch it raises `ValueError` and
returns with the index state completely unchanged (nothing is added to the
backend, the payload list is not extended). -/
theorem c10_add_atomic_on_failure {T : Type} (idx : VectorIndex T)
    (sqrt : ℚ → ℚ) (vectors : List (List ℚ)) (items : List T)
    (matrix : List (List ℚ)) (width : Nat)
    (hmat : as_float32_matrix vectors = .ok (matrix, width)) :
    (width ≠ idx.dim →
      idx.add sqrt vectors items =
        (some "Shape mismatch: expected vectors of shape (N, dim)", idx)) ∧
    (width = idx.dim → matrix.length ≠ items.length →
      idx.add sqrt vectors items =
        (some "Number of vectors must match number of payload items.", idx)) := by
  constructor
  · intro hw
    rw [VectorIndex.add, hmat]
    simp only [if_pos hw]
  · intro hw hlen
    rw [VectorIndex.add, hmat]
    simp only [hw, ne_eq, not_true_eq_false, if_false, if_pos hlen]

/-- Witness for claim C10: a wrong-width matrix and a payload-count mismatch,
both leaving a concrete index unchanged. -/
theorem c10_add_atomic_on_failure_witness :
    (VectorIndex.add ⟨2, [[5, 5]], ["A"]⟩ (fun x => x) [[1]] ["B"] =
      (some "Shape mismatch: expected vectors of shape (N, dim)",
        ⟨2, [[5, 5]], ["A"]⟩)) ∧
    (VectorIndex.add ⟨2, [[5, 5]], ["A"]⟩ (fun x => x) [[1, 2]] [] =
      (some "Number of vectors must match number of payload items.",
        ⟨2, [[5, 5]], ["A"]⟩)) :=
  ⟨(c10_add_atomic_on_failure ⟨2, [[5, 5]], ["A"]⟩ (fun x => x) [[1]] ["B"]
      [[1]] 1 (by decide)).1 (by decide),
   (c10_add_atomic_on_failure ⟨2, [[5, 5]], ["A"]⟩ (fun x => x) [[1, 2]] []
      [[1, 2]] 2 (by decide)).2 (by decide) (by decide)⟩

/-- Sum-of-squares of a row after entrywise division by `n`. -/
theorem rowNormSq_div (row : List ℚ) (n : ℚ) :
    rowNormSq (row.map (fun a => a / n)) = rowNormSq row / (n * n) := by
  induction row with
  | nil => simp [rowNormSq]
  | cons a t ih =>
    simp only [rowNormSq, List.map_cons, List.sum_cons] at ih ⊢
    rw [ih, div_mul_div_comm, add_div]

/-- Claim C8: `VectorIndex.add` L2-normalizes row-wise before storage, the
normalization is total — the effective divisor is never zero (the
division-by-zero branch is never taken), an all-zero row is left as all zeros
rather than producing NaN, and a row with non-zero norm ends up with unit
norm (stated as unit sum-of-squares for an exact square root of the row). -/
theorem c8_add_l2_normalizes {T : Type} (idx : VectorIndex T) (sqrt : ℚ → ℚ)
    (vectors : List (List ℚ)) (items : List T)
    (matrix : List (List ℚ)) (width : Nat)
    (hmat : as_float32_matrix vectors = .ok (matrix, width))
    (hw : width = idx.dim) (hlen : matrix.length = items.length) :
    (idx.add sqrt vectors items =
      (none, { idx with stored := idx.stored ++ l2_normalize_rows sqrt matrix,
                        payloads := idx.payloads ++ items })) ∧
    (∀ row ∈ matrix, effNorm sqrt row ≠ 0) ∧
    (∀ row ∈ matrix, (∀ a ∈ row, a = 0) →
       row.map (fun a => a / effNorm sqrt row) = row) ∧
    (∀ row ∈ matrix, rowNormSq row ≠ 0 →
       sqrt (rowNormSq row) * sqrt (rowNormSq row) = rowNormSq row →
       rowNormSq (row.map (fun a => a / effNorm sqrt row)) = 1) := by
  refine ⟨?_, ?_, ?_, ?_⟩
  · rw [VectorIndex.add, hmat]
    simp only [hw, ne_eq, not_true_eq_false, if_false, hlen]
  · intro row _
    rw [effNorm]
    by_cases h : sqrt (rowNormSq row) = 0
    · rw [if_pos h]
      exact one_ne_zero
    · rw [if_neg h]
      exact h
  · intro row _ hzero
    have hall : ∀ a ∈ row, a / effNorm sqrt row = a := by
      intro a ha
      rw [hzero a ha, zero_div]
    calc row.map (fun a => a / effNorm sqrt row) = row.map (fun a => a) :=
          List.map_congr_left hall
      _ = row := List.map_id' row
  · intro row _ hnz hsq
    have hs0 : sqrt (rowNormSq row) ≠ 0 := by
      intro h0
      rw [h0, mul_zero] at hsq
      exact hnz hsq.symm
    rw [rowNormSq_div, effNorm, if_neg hs0, hsq]
    exact div_self hnz

/-- Witness for claim C8: adding the matrix `[[3,4],[0,0]]` with the exact
square root `25 ↦ 5`; the non-zero row gets unit norm, the zero row stays
zero. -/
theorem c8_add_l2_normalizes_witness :
    (VectorIndex.add (T := String) ⟨2, [], []⟩ (fun q => if q = 25 then 5 else 0)
        [[3, 4], [0, 0]] ["a", "b"] =
      (none, { dim := 2,
               stored := l2_normalize_rows (fun q => if q = 25 then 5 else 0) [[3, 4], [0, 0]],
               payloads := ["a", "b"] })) ∧
    effNorm (fun q => if q = 25 then 5 else 0) [3, 4] ≠ 0 ∧
    (([0, 0] : List ℚ).map (fun a => a / effNorm (fun q => if q = 25 then 5 else 0) [0, 0]) = [0, 0]) ∧
    rowNormSq (([3, 4] : List ℚ).map (fun a => a / effNorm (fun q => if q = 25 then 5 else 0) [3, 4])) = 1 := by
  have h := c8_add_l2_normalizes (T := String) ⟨2, [], []⟩
      (fun q => if q = 25 then 5 else 0) [[3, 4], [0, 0]] ["a", "b"]
      [[3, 4], [0, 0]] 2 (by decide) (by decide) (by decide)
  refine ⟨?_, ?_, ?_, ?_⟩
  · rw [h.1]
    simp
  · exact h.2.1 [3, 4] (by simp)
  · exact h.2.2.1 [0, 0] (by simp) (by norm_num)
  · exact h.2.2.2 [3, 4] (by simp) (by norm_num [rowNormSq]) (by norm_num [rowNormSq])

/-- The concrete relation of the spec scenario:
`Bias --is_threat_to--> Fairness` with empty edge properties. -/
def biasRelation : GraphRelation :=
  { source := { label := "Bias" }, target := { label := "Fairness" },
    edge := { label := "is_threat_to", properties := [] } }

/-- Claim C6: `build_index` on an empty relation sequence always raises a
configuration error (`ValueError`) and never returns an index; on a non-empty
sequence (with the encoder meeting its documented `(N, dim)` shape contract)
it returns an index holding exactly one vector per relation with the original
`GraphRelation` objects as payloads in input order. -/
theorem c6_build_index_empty_fatal_nonempty_complete
    (f : SubgraphSimilarityFilter) (sqrt : ℚ → ℚ) (relations : List GraphRelation)
    (henc_len : (f.encoder.encode (relations.map relation_to_text)).length = relations.length)
    (henc_dim : ∀ row ∈ f.encoder.encode (relations.map relation_to_text),
        row.length = f.encoder.dim) :
    (f.build_index sqrt [] = .error "Cannot build vector index: relations is empty.") ∧
    (relations ≠ [] → ∃ idx : VectorIndex GraphRelation,
      f.build_index sqrt relations = .ok idx ∧
      idx.payloads = relations ∧
      idx.stored.length = relations.length ∧
      idx.dim = f.encoder.dim) := by
  constructor
  · rfl
  · intro hne
    rw [SubgraphSimilarityFilter.build_index,
      if_neg (by simpa [List.isEmpty_iff] using hne)]
    cases hv : f.encoder.encode (relations.map relation_to_text) with
    | nil =>
      rw [hv] at henc_len
      exact absurd (List.length_eq_zero.mp henc_len.symm) hne
    | cons v vs =>
      have hvd : v.length = f.encoder.dim :=
        henc_dim v (by rw [hv]; exact List.mem_cons_self v vs)
      have hall : vs.all (fun row => row.length = v.length) = true := by
        rw [List.all_eq_true]
        intro row hrow
        have hrd : row.length = f.encoder.dim :=
          henc_dim row (by rw [hv]; exact List.mem_cons_of_mem v hrow)
        simp [hrd, hvd]
      have hmat : as_float32_matrix (v :: vs) = .ok (v :: vs, v.length) := by
        rw [as_float32_matrix, if_pos hall]
      have hlen2 : (v :: vs).length = relations.length := by
        rw [← hv]
        exact henc_len
      simp only [hv, VectorIndex.add, hmat, VectorIndex.create, hvd, hlen2, ne_eq,
        not_true_eq_false, if_false]
      refine ⟨_, rfl, by simp, ?_, rfl⟩
      simpa [l2_normalize_rows] using hlen2

/-- Witness for claim C6: the spec scenario relation list `[biasRelation]`
with a one-dimensional encoder. -/
theorem c6_build_index_witness :
    (SubgraphSimilarityFilter.build_index
        ⟨⟨1, fun ts => ts.map (fun _ => [2])⟩, 5, 1⟩ (fun q => q) [] =
      .error "Cannot build vector index: relations is empty.") ∧
    (∃ idx : VectorIndex GraphRelation,
      SubgraphSimilarityFilter.build_index
          ⟨⟨1, fun ts => ts.map (fun _ => [2])⟩, 5, 1⟩ (fun q => q) [biasRelation] =
        .ok idx ∧
      idx.payloads = [biasRelation] ∧
      idx.stored.length = 1 ∧ idx.dim = 1) := by
  have h := c6_build_index_empty_fatal_nonempty_complete
      ⟨⟨1, fun ts => ts.map (fun _ => [2])⟩, 5, 1⟩ (fun q => q) [biasRelation]
      (by decide) (by decide)
  exact ⟨h.1, h.2 (by decide)⟩

/-- Relation with an underscore at the end of the edge label; exercises the
whitespace-stripping step of `_humanize` that the claim wording omits. -/
def cxRelation : GraphRelation :=
  { source := { label := "Bias" }, target := { label := "Fairness" },
    edge := { label := "is_threat_to_", properties := [] } }

/-- Relation with a stored sentence ending in an underscore; the sentence
branch strips the resulting trailing space as well. -/
def cxSentRelation : GraphRelation :=
  { source := { label := "Bias" }, target := { label := "Fairness" },
    edge := { label := "is_threat_to",
              properties := [("sentence", "bias_threatens_fairness_")] } }

/-- Counterexample to claim C7 as stated: the claim describes the output as
the interpolated labels (resp. the stored sentence) with underscores replaced
by spaces and the first letter capitalized, but `_humanize` also strips
surrounding whitespace of each token.  For the edge label `is_threat_to_`
the claim reading produces a double space while the code collapses it; for a
stored sentence ending in an underscore the claim reading keeps a trailing
space the code strips. -/
theorem c7_relation_to_text_counterexample :
    truthyOpt (EdgeProperties.get cxRelation.edge.properties "sentence") = false ∧
    relation_to_text cxRelation = "Bias is threat to Fairness" ∧
    claimSynthText cxRelation = "Bias is threat to  Fairness" ∧
    relation_to_text cxRelation ≠ claimSynthText cxRelation ∧
    relation_to_text cxSentRelation = "Bias threatens fairness" ∧
    claimSentenceText "bias_threatens_fairness_" = "Bias threatens fairness " ∧
    relation_to_text cxSentRelation ≠ claimSentenceText "bias_threatens_fairness_" := by
  decide

/-- Claim C7 as amended: with no (or an empty) stored sentence,
`relation_to_text` returns the three labels each humanized (underscores
replaced by spaces, then surrounding whitespace stripped) joined with single
spaces and the first letter capitalized; with a non-empty stored sentence it
returns that sentence humanized the same way and capitalized; in particular
the `Bias is_threat_to Fairness` relation yields exactly
`"Bias is threat to Fairness"`. -/
theorem c7_relation_to_text_amended :
    (∀ r : GraphRelation,
      truthyOpt (EdgeProperties.get r.edge.properties "sentence") = false →
      relation_to_text r = amendedSynthText r) ∧
    (∀ (r : GraphRelation) (s : String),
      EdgeProperties.get r.edge.properties "sentence" = some s → s ≠ "" →
      relation_to_text r = amendedSentenceText s) ∧
    relation_to_text biasRelation = "Bias is threat to Fairness" := by
  refine ⟨?_, ?_, by decide⟩
  · intro r h
    rw [relation_to_text]
    simp only [h, if_false]
    rfl
  · intro r s hs hne
    rw [relation_to_text]
    simp only [hs, truthyOpt, ne_eq, hne, not_false_eq_true, decide_True, if_true,
      Option.getD_some]
    rfl

/-- Witness for the amended claim C7, at the spec scenario relation and at a
stored-sentence relation. -/
theorem c7_relation_to_text_amended_witness :
    relation_to_text cxRelation = amendedSynthText cxRelation ∧
    relation_to_text cxSentRelation = amendedSentenceText "bias_threatens_fairness_" ∧
    relation_to_text biasRelation = "Bias is threat to Fairness" := by
  have h := c7_relation_to_text_amended
  exact ⟨h.1 cxRelation (by decide),
    h.2.1 cxSentRelation "bias_threatens_fairness_" (by decide) (by decide), h.2.2⟩

/-- Claim C1 names `filter_qualities` pure (no file writes); the code itself
calls `save_similarity_results_json` on line 353, which writes the JSON
artifact `logs/03_vector_similarity_filter_results_<timestamp>.json` via
`write_json` and prints an info line — contradicting the module docstring
(lines 45-48: "pure (no I/O, no DB writes)").  Evaluated here at a concrete
one-quality input: the successful run carries a non-empty effect trace
containing the file write. -/
theorem c1_filter_qualities_writes_json_artifact :
    SubgraphSimilarityFilter.filter_qualities ⟨⟨1, fun ts => ts.map (fun _ => [1])⟩, 1, 1⟩
        ⟨1, [[1]], [biasRelation]⟩ (fun _ _ _ => ⟨[[7]], [[0]]⟩) (fun q => q) "T"
        ["Bias is threat to Fairness"] =
      .ok ((([{ quality := "Bias is threat to Fairness", max_score := 7,
                neighbors := [{ relation := biasRelation, score := 7 }] }], []) :
              List (KeptQuality GraphRelation) × List DroppedQuality),
           [Effect.consoleStatus "Performing batch vector similarity search:",
            Effect.writeJson "logs/03_vector_similarity_filter_results_T.json",
            Effect.stdoutPrint
              "[INFO] Wrote vector similarity results to logs/03_vector_similarity_filter_results_T.json"]) ∧
    Effect.writeJson "logs/03_vector_similarity_filter_results_T.json" ∈
      [Effect.consoleStatus "Performing batch vector similarity search:",
       Effect.writeJson "logs/03_vector_similarity_filter_results_T.json",
       Effect.stdoutPrint
         "[INFO] Wrote vector similarity results to logs/03_vector_similarity_filter_results_T.json"] := by
  decide

/-- Sentinel layout produced by the real backends: once a negative label
appears in a row, every later slot is a sentinel too (valid labels first,
then `-1` padding for under-filled results). -/
def sentinelsTrail : List Int → Prop
  | [] => True
  | id :: rest => (id < 0 → ∀ x ∈ rest, x < 0) ∧ sentinelsTrail rest

instance sentinelsTrailDecidable : (l : List Int) → Decidable (sentinelsTrail l)
  | [] => .isTrue trivial
  | id :: rest =>
    have : Decidable (sentinelsTrail rest) := sentinelsTrailDecidable rest
    decidable_of_iff ((id < 0 → ∀ x ∈ rest, x < 0) ∧ sentinelsTrail rest)
      (by rw [sentinelsTrail])

theorem hnswCollectPairs_allNeg {T : Type} (payloads : List T) :
    ∀ (l : List Int) (d : List ℚ), (∀ x ∈ l, x < 0) →
      hnswCollectPairs payloads (l.zip d) = .ok [] := by
  intro l
  induction l with
  | nil => intro d _; rfl
  | cons id rest ih =>
    intro d hneg
    cases d with
    | nil => rfl
    | cons d0 ds =>
      rw [List.zip_cons_cons]
      simp only [hnswCollectPairs, if_pos (hneg id (List.mem_cons_self id rest))]
      exact ih ds (fun x hx => hneg x (List.mem_cons_of_mem id hx))

theorem validPayloads_allNeg {T : Type} (payloads : List T) (l : List Int)
    (hneg : ∀ x ∈ l, x < 0) : validPayloads payloads l = [] := by
  induction l with
  | nil => rfl
  | cons id rest ih =>
    have h0 := hneg id (List.mem_cons_self id rest)
    simp only [validPayloads, List.filterMap_cons, if_pos h0]
    exact ih (fun x hx => hneg x (List.mem_cons_of_mem id hx))

/-- Core equivalence for the hnswlib wrapper: under the valid-then-sentinel
label layout, the sentinel-skipping loop of `search` produces exactly the
row-0 unpacking that `search_batch` computes through payload collection and
score masking. -/
theorem hnswCollectPairs_eq_unpack {T : Type} (payloads : List T) :
    ∀ (l : List Int) (d : List ℚ), sentinelsTrail l →
      (∀ id ∈ l, 0 ≤ id → id.toNat < payloads.length) →
      hnswCollectPairs payloads (l.zip d) =
        .ok ((validPayloads payloads l).zip
              (maskScoresRow l (d.map (fun x => 1 - x)))) := by
  intro l
  induction l with
  | nil => intro d _ _; rfl
  | cons id rest ih =>
    intro d htrail hbound
    by_cases hid : id < 0
    · have hneg : ∀ x ∈ id :: rest, x < 0 := by
        intro x hx
        rcases List.mem_cons.mp hx with rfl | hx
        · exact hid
        · exact htrail.1 hid x hx
      rw [hnswCollectPairs_allNeg payloads _ d hneg, validPayloads_allNeg payloads _ hneg]
      simp
    · cases d with
      | nil =>
        simp [hnswCollectPairs, maskScoresRow]
      | cons d0 ds =>
        have hlt : id.toNat < payloads.length :=
          hbound id (List.mem_cons_self id rest) (le_of_not_lt hid)
        obtain ⟨p, hp⟩ : ∃ p, payloads[id.toNat]? = some p :=
          ⟨_, List.getElem?_eq_getElem hlt⟩
        rw [List.zip_cons_cons]
        simp only [hnswCollectPairs, if_neg hid, hp,
          ih ds htrail.2 (fun x hx hn => hbound x (List.mem_cons_of_mem id hx) hn)]
        simp [validPayloads, List.filterMap_cons, hid, hp, maskScoresRow, Except.map]

/-- Claim C2 as amended: for the FAISS backend, `search(q, k)` on a query of
the index dimension returns exactly `search_batch([q], k)` unpacked at row 0
(it delegates and adds no masking of its own).  The hnswlib backend `search`
does not call `search_batch`; it re-implements the `knn_query` unpacking with
its own sentinel-skipping loop, and its result coincides with the unpacked
`search_batch` exactly under the valid-then-sentinel label layout the real
backend produces (and can differ when a sentinel precedes a valid label). -/
theorem c2_amended :
    (∀ (T : Type) (idx : VectorIndex T) (backend : FaissBackend) (sqrt : ℚ → ℚ)
        (query_vec : List ℚ) (k : Int), query_vec.length = idx.dim →
        idx.search backend sqrt query_vec k =
          (idx.search_batch backend sqrt [query_vec] k).map unpackRow0) ∧
    (∀ (T : Type) (idx : HnswVectorIndex T) (query_vec : List ℚ) (k : Int),
        query_vec.length = idx.dim →
        (idx.knn [query_vec] k.toNat).labels.length = 1 →
        (idx.knn [query_vec] k.toNat).distances.length = 1 →
        sentinelsTrail ((idx.knn [query_vec] k.toNat).labels.headD []) →
        (∀ id ∈ (idx.knn [query_vec] k.toNat).labels.headD [], 0 ≤ id →
          id.toNat < idx.payloads.length) →
        idx.search query_vec k =
          (idx.search_batch [query_vec] k).map unpackRow0) := by
  constructor
  · intro T idx backend sqrt qv k hq
    rw [VectorIndex.search]
    have hm : as_float32_matrix [qv] = .ok ([qv], qv.length) := by
      rw [as_float32_matrix]
      simp
    by_cases hk : k ≤ 0
    · rw [if_pos hk, VectorIndex.search_batch, hm]
      simp only [hq, ne_eq, not_true_eq_false, if_false, if_pos hk]
      simp [unpackRow0, Except.map]
    · rw [if_neg hk]
      have hv : as_float32_vector qv idx.dim = .ok qv := by
        rw [as_float32_vector, if_pos hq]
      rw [hv]
      cases hsb : idx.search_batch backend sqrt [qv] k with
      | error e => simp [hsb, Except.map]
      | ok res => simp [hsb, Except.map, unpackRow0]
  · intro T idx qv k hq hl1 hd1 htrail hbound
    by_cases hk : k ≤ 0
    · rw [HnswVectorIndex.search, if_pos hk, HnswVectorIndex.search_batch, if_pos hk]
      simp [unpackRow0, Except.map]
    · obtain ⟨l0, hl⟩ : ∃ l0, (idx.knn [qv] k.toNat).labels = [l0] := by
        cases hls : (idx.knn [qv] k.toNat).labels with
        | nil => rw [hls] at hl1; simp at hl1
        | cons a t =>
          cases t with
          | nil => exact ⟨a, rfl⟩
          | cons b t2 => rw [hls] at hl1; simp at hl1
      obtain ⟨d0, hd⟩ : ∃ d0, (idx.knn [qv] k.toNat).distances = [d0] := by
        cases hds : (idx.knn [qv] k.toNat).distances with
        | nil => rw [hds] at hd1; simp at hd1
        | cons a t =>
          cases t with
          | nil => exact ⟨a, rfl⟩
          | cons b t2 => rw [hds] at hd1; simp at hd1
      rw [hl] at htrail hbound
      simp only [List.headD_cons] at htrail hbound
      have hm : as_float32_matrix [qv] = .ok ([qv], qv.length) := by
        rw [as_float32_matrix]
        simp
      rw [HnswVectorIndex.search, if_neg hk, HnswVectorIndex.search_batch, if_neg hk, hm]
      simp only [hq, ne_eq, not_true_eq_false, if_false, hl, hd, List.headD_cons]
      rw [lookupRows, lookupValidPayloads_ok idx.payloads l0 hbound, lookupRows]
      simp only [List.map_cons, List.map_nil]
      rw [hnswCollectPairs_eq_unpack idx.payloads l0 d0 htrail hbound]
      simp [unpackRow0, maskScores, Except.map]

/-- Counterexample to claim C2 as stated: the hnswlib `search` does not return
the row-0 unpacking of `search_batch` for every backend reply — with the
label row `[-1, 0]` (a sentinel before a valid label) `search` pairs payload
`"A"` with similarity `7`, while the unpacked `search_batch` pairs it with
the masked score `0`.  The claim is also structurally false for this backend:
`search` (`index_hnswlib.py`, lines 187-245) never calls `search_batch` and
carries its own sentinel-masking loop. -/
theorem c2_counterexample :
    HnswVectorIndex.search ⟨1, fun _ _ => ⟨[[-1, 0]], [[5, -6]]⟩, ["A"]⟩ [0] 2 =
      .ok [("A", 7)] ∧
    (HnswVectorIndex.search_batch ⟨1, fun _ _ => ⟨[[-1, 0]], [[5, -6]]⟩, ["A"]⟩
        [[0]] 2).map unpackRow0 = .ok [("A", 0)] ∧
    HnswVectorIndex.search ⟨1, fun _ _ => ⟨[[-1, 0]], [[5, -6]]⟩, ["A"]⟩ [0] 2 ≠
      (HnswVectorIndex.search_batch ⟨1, fun _ _ => ⟨[[-1, 0]], [[5, -6]]⟩, ["A"]⟩
          [[0]] 2).map unpackRow0 := by
  have h1 : HnswVectorIndex.search
      ⟨1, fun _ _ => ⟨[[-1, 0]], [[5, -6]]⟩, ["A"]⟩ [0] 2 = .ok [("A", 7)] := by
    simp [HnswVectorIndex.search, hnswCollectPairs, Except.map]
    norm_num
  have h2 : (HnswVectorIndex.search_batch
      ⟨1, fun _ _ => ⟨[[-1, 0]], [[5, -6]]⟩, ["A"]⟩ [[0]] 2).map unpackRow0 =
      .ok [("A", 0)] := by
    simp [HnswVectorIndex.search_batch, as_float32_matrix, lookupRows,
      lookupValidPayloads, maskScores, maskScoresRow, unpackRow0, Except.map]
  refine ⟨h1, h2, ?_⟩
  rw [h1, h2]
  intro hc
  have := Except.ok.inj hc
  simp at this

/-- Witness for the amended claim C2: both backend equivalences evaluated at
a concrete under-filled two-slot search. -/
theorem c2_amended_witness :
    (VectorIndex.search ⟨1, [[1]], ["A"]⟩
        (fun _ _ _ => ⟨[[7, 3]], [[0, -1]]⟩) (fun x => x) [5] 2 =
      (VectorIndex.search_batch ⟨1, [[1]], ["A"]⟩
          (fun _ _ _ => ⟨[[7, 3]], [[0, -1]]⟩) (fun x => x) [[5]] 2).map unpackRow0) ∧
    (HnswVectorIndex.search ⟨1, fun _ _ => ⟨[[0, -1]], [[-6, 3]]⟩, ["A"]⟩ [5] 2 =
      (HnswVectorIndex.search_batch ⟨1, fun _ _ => ⟨[[0, -1]], [[-6, 3]]⟩, ["A"]⟩
          [[5]] 2).map unpackRow0) :=
  ⟨c2_amended.1 String ⟨1, [[1]], ["A"]⟩
      (fun _ _ _ => ⟨[[7, 3]], [[0, -1]]⟩) (fun x => x) [5] 2 (by decide),
   c2_amended.2 String ⟨1, fun _ _ => ⟨[[0, -1]], [[-6, 3]]⟩, ["A"]⟩ [5] 2
      (by decide) (by decide) (by decide) (by decide) (by decide)⟩

/-- Pair view of a kept item, used to state partition and ordering facts. -/
def keptPair {T : Type} (x : KeptQuality T) : Quality × ℚ := (x.quality, x.max_score)

/-- Pair view of a dropped item. -/
def droppedPair (x : DroppedQuality) : Quality × ℚ := (x.quality, x.max_score)

theorem assemble_kept_ms {T : Type} (t : ℚ)
    (rows : List (Quality × ℚ × List T × List ℚ)) :
    ∀ x ∈ (assemble t rows).1, t ≤ x.max_score := by
  induction rows with
  | nil => intro x hx; simp [assemble] at hx
  | cons r rest ih =>
    intro x hx
    rcases r with ⟨q, ms, n, s⟩
    by_cases h : ms < t
    · rw [assemble] at hx
      simp only [if_pos h] at hx
      exact ih x hx
    · rw [assemble] at hx
      simp only [if_neg h] at hx
      rcases List.mem_cons.mp hx with rfl | hx
      · exact le_of_not_lt h
      · exact ih x hx

theorem assemble_dropped_ms {T : Type} (t : ℚ)
    (rows : List (Quality × ℚ × List T × List ℚ)) :
    ∀ x ∈ (assemble t rows).2, x.max_score < t := by
  induction rows with
  | nil => intro x hx; simp [assemble] at hx
  | cons r rest ih =>
    intro x hx
    rcases r with ⟨q, ms, n, s⟩
    by_cases h : ms < t
    · rw [assemble] at hx
      simp only [if_pos h] at hx
      rcases List.mem_cons.mp hx with rfl | hx
      · exact h
      · exact ih x hx
    · rw [assemble] at hx
      simp only [if_neg h] at hx
      exact ih x hx

theorem assemble_perm {T : Type} (t : ℚ)
    (rows : List (Quality × ℚ × List T × List ℚ)) :
    List.Perm
      ((assemble t rows).1.map keptPair ++ (assemble t rows).2.map droppedPair)
      (rows.map (fun r => (r.1, r.2.1))) := by
  induction rows with
  | nil => simp [assemble]
  | cons r rest ih =>
    rcases r with ⟨q, ms, n, s⟩
    by_cases h : ms < t
    · rw [assemble]
      simp only [if_pos h, List.map_cons]
      exact (List.perm_middle.trans ((ih).cons (q, ms))).symm.symm
    · rw [assemble]
      simp only [if_neg h, List.map_cons, List.cons_append]
      exact ih.cons (q, ms)

theorem assemble_kept_sublist {T : Type} (t : ℚ)
    (rows : List (Quality × ℚ × List T × List ℚ)) :
    List.Sublist ((assemble t rows).1.map keptPair)
      (rows.map (fun r => (r.1, r.2.1))) := by
  induction rows with
  | nil => simp [assemble]
  | cons r rest ih =>
    rcases r with ⟨q, ms, n, s⟩
    by_cases h : ms < t
    · rw [assemble]
      simp only [if_pos h, List.map_cons]
      exact ih.cons (q, ms)
    · rw [assemble]
      simp only [if_neg h, List.map_cons]
      exact ih.cons₂ (q, ms)

theorem assemble_dropped_sublist {T : Type} (t : ℚ)
    (rows : List (Quality × ℚ × List T × List ℚ)) :
    List.Sublist ((assemble t rows).2.map droppedPair)
      (rows.map (fun r => (r.1, r.2.1))) := by
  induction rows with
  | nil => simp [assemble]
  | cons r rest ih =>
    rcases r with ⟨q, ms, n, s⟩
    by_cases h : ms < t
    · rw [assemble]
      simp only [if_pos h, List.map_cons]
      exact ih.cons₂ (q, ms)
    · rw [assemble]
      simp only [if_neg h, List.map_cons]
      exact ih.cons (q, ms)

theorem assemble_kept_mem {T : Type} (t : ℚ)
    (rows : List (Quality × ℚ × List T × List ℚ)) (x : KeptQuality T)
    (hx : x ∈ (assemble t rows).1) :
    ∃ r ∈ rows, ¬ r.2.1 < t ∧
      x = { quality := r.1, max_score := r.2.1,
            neighbors := (r.2.2.1.zip r.2.2.2).map (fun p => ⟨p.1, p.2⟩) } := by
  induction rows with
  | nil => simp [assemble] at hx
  | cons r rest ih =>
    rcases r with ⟨q, ms, n, s⟩
    by_cases h : ms < t
    · rw [assemble] at hx
      simp only [if_pos h] at hx
      rcases ih hx with ⟨r2, hr2, hlt, hxeq⟩
      exact ⟨r2, List.mem_cons_of_mem _ hr2, hlt, hxeq⟩
    · rw [assemble] at hx
      simp only [if_neg h] at hx
      rcases List.mem_cons.mp hx with rfl | hx
      · exact ⟨(q, ms, n, s), List.mem_cons_self _ _, h, rfl⟩
      · rcases ih hx with ⟨r2, hr2, hlt, hxeq⟩
        exact ⟨r2, List.mem_cons_of_mem _ hr2, hlt, hxeq⟩

theorem buildRows_map_pair {T : Type} :
    ∀ (qs : List Quality) (maxScores : List ℚ) (nbrs : List (List T))
      (scores : List (List ℚ)),
      maxScores.length = qs.length → nbrs.length = qs.length →
      scores.length = qs.length →
      (buildRows qs maxScores nbrs scores).map (fun r => (r.1, r.2.1)) =
        qs.zip maxScores := by
  intro qs
  induction qs with
  | nil =>
    intro maxScores nbrs scores h1 _ _
    rw [List.length_eq_zero.mp h1]
    rfl
  | cons q0 qs ih =>
    intro maxScores nbrs scores h1 h2 h3
    cases maxScores with
    | nil => simp at h1
    | cons m0 ms =>
      cases nbrs with
      | nil => simp at h2
      | cons n0 ns =>
        cases scores with
        | nil => simp at h3
        | cons s0 ss =>
          simp only [List.length_cons, Nat.succ.injEq] at h1 h2 h3
          simp only [buildRows, List.zip_cons_cons, List.map_cons]
          have := ih ms ns ss h1 h2 h3
          rw [buildRows] at this
          rw [this]

/-- When the score matrix has rows and they are non-empty (`scores.size != 0`
in NumPy terms), the vectorized max takes the row-maximum branch. -/
theorem computeMaxScores_eq (n : Nat) (scores : List (List ℚ))
    (hne : scores ≠ []) (hrows : ∀ row ∈ scores, row ≠ []) :
    computeMaxScores n scores = scores.map rowMax := by
  rw [computeMaxScores, if_neg]
  intro hsum
  cases scores with
  | nil => exact hne rfl
  | cons r rs =>
    have hall : ∀ x ∈ List.map List.length (r :: rs), x = 0 :=
      List.sum_eq_zero_iff.mp hsum
    have h0 : r.length = 0 := hall r.length (by simp)
    exact hrows r (List.mem_cons_self r rs) (List.length_eq_zero.mp h0)

/-- Shared extraction lemma: a successful non-empty `filter_qualities` run
produces exactly the stable descending sorts of the assembly of the rows
built from the `search_batch` output. -/
theorem filter_qualities_ok_elim (f : SubgraphSimilarityFilter)
    (idx : VectorIndex GraphRelation) (backend : FaissBackend) (sqrt : ℚ → ℚ)
    (created_at : String) (qualities : List Quality)
    (kept : List (KeptQuality GraphRelation)) (dropped : List DroppedQuality)
    (effs : List Effect) (nbrs : List (List GraphRelation))
    (scoresM : List (List ℚ))
    (hfq : f.filter_qualities idx backend sqrt created_at qualities =
      .ok ((kept, dropped), effs))
    (hsb : idx.search_batch backend sqrt
        (f.encoder.encode (qualities.map quality_to_text)) f.top_k =
      .ok (nbrs, scoresM))
    (hne : qualities ≠ []) :
    kept = sortDesc (fun x => x.max_score)
      (assemble f.threshold
        (buildRows qualities (computeMaxScores qualities.length scoresM)
          nbrs scoresM)).1 ∧
    dropped = sortDesc (fun x => x.max_score)
      (assemble f.threshold
        (buildRows qualities (computeMaxScores qualities.length scoresM)
          nbrs scoresM)).2 := by
  rw [SubgraphSimilarityFilter.filter_qualities,
    if_neg (by simpa [List.isEmpty_iff] using hne)] at hfq
  simp only [hsb, Except.ok.injEq, Prod.mk.injEq] at hfq
  exact ⟨hfq.1.1.symm, hfq.1.2.symm⟩

/-- Claim C3: for a non-empty quality list, a quality (with its row maximum)
lands in `kept` exactly when `max_score >= threshold`, in `dropped` exactly
when `max_score < threshold`, and the two outputs together are a complete,
non-overlapping partition of the input (stated as a permutation of the
input-aligned `(quality, max_score)` pairs). -/
theorem c3_threshold_partition (f : SubgraphSimilarityFilter)
    (idx : VectorIndex GraphRelation) (backend : FaissBackend) (sqrt : ℚ → ℚ)
    (created_at : String) (qualities : List Quality)
    (kept : List (KeptQuality GraphRelation)) (dropped : List DroppedQuality)
    (effs : List Effect) (nbrs : List (List GraphRelation))
    (scoresM : List (List ℚ))
    (hfq : f.filter_qualities idx backend sqrt created_at qualities =
      .ok ((kept, dropped), effs))
    (hsb : idx.search_batch backend sqrt
        (f.encoder.encode (qualities.map quality_to_text)) f.top_k =
      .ok (nbrs, scoresM))
    (hne : qualities ≠ [])
    (hlen : scoresM.length = qualities.length)
    (hnbrs : nbrs.length = qualities.length)
    (hrows : ∀ row ∈ scoresM, row ≠ []) :
    (∀ x ∈ kept, f.threshold ≤ x.max_score) ∧
    (∀ x ∈ dropped, x.max_score < f.threshold) ∧
    List.Perm (kept.map keptPair ++ dropped.map droppedPair)
      (qualities.zip (scoresM.map rowMax)) ∧
    (∀ p ∈ qualities.zip (scoresM.map rowMax),
      (p ∈ kept.map keptPair ↔ f.threshold ≤ p.2)) := by
  obtain ⟨hk, hd⟩ := filter_qualities_ok_elim f idx backend sqrt created_at
    qualities kept dropped effs nbrs scoresM hfq hsb hne
  have hms : computeMaxScores qualities.length scoresM = scoresM.map rowMax :=
    computeMaxScores_eq _ _
      (by
        intro h
        rw [h] at hlen
        exact hne (List.length_eq_zero.mp hlen.symm))
      hrows
  have hkms : ∀ x ∈ kept, f.threshold ≤ x.max_score := by
    intro x hx
    rw [hk] at hx
    exact assemble_kept_ms _ _ x ((sortDesc_mem _ _ x).mp hx)
  have hdms : ∀ x ∈ dropped, x.max_score < f.threshold := by
    intro x hx
    rw [hd] at hx
    exact assemble_dropped_ms _ _ x ((sortDesc_mem _ _ x).mp hx)
  have hperm : List.Perm (kept.map keptPair ++ dropped.map droppedPair)
      (qualities.zip (scoresM.map rowMax)) := by
    rw [hk, hd]
    refine (List.Perm.append
        ((sortDesc_perm _ _).map keptPair)
        ((sortDesc_perm _ _).map droppedPair)).trans ?_
    refine (assemble_perm f.threshold _).trans ?_
    rw [buildRows_map_pair qualities _ nbrs scoresM
        (by rw [hms, List.length_map, hlen]) hnbrs hlen, hms]
  refine ⟨hkms, hdms, hperm, ?_⟩
  intro p hp
  constructor
  · intro hpk
    rcases List.mem_map.mp hpk with ⟨x, hx, rfl⟩
    exact hkms x hx
  · intro hpt
    have hp2 : p ∈ kept.map keptPair ++ dropped.map droppedPair :=
      hperm.symm.subset hp
    rcases List.mem_append.mp hp2 with h | h
    · exact h
    · rcases List.mem_map.mp h with ⟨x, hx, rfl⟩
      exact absurd hpt (not_le_of_lt (hdms x hx))

/-- Witness for claim C3: a two-quality run in which one quality (score `7`)
passes the threshold `1` and one (score `0`) fails it. -/
theorem c3_threshold_partition_witness :
    (∀ x ∈ [({ quality := "near", max_score := 7,
               neighbors := [{ relation := biasRelation, score := 7 }] } :
              KeptQuality GraphRelation)], (1 : ℚ) ≤ x.max_score) ∧
    (∀ x ∈ [({ quality := "far", max_score := 0 } : DroppedQuality)],
      x.max_score < (1 : ℚ)) ∧
    List.Perm
      ([({ quality := "near", max_score := 7,
           neighbors := [{ relation := biasRelation, score := 7 }] } :
          KeptQuality GraphRelation)].map keptPair ++
        [({ quality := "far", max_score := 0 } : DroppedQuality)].map droppedPair)
      ([("near", (7 : ℚ)), ("far", 0)]) ∧
    (∀ p ∈ [(("near" : Quality), (7 : ℚ)), ("far", 0)],
      (p ∈ [({ quality := "near", max_score := 7,
               neighbors := [{ relation := biasRelation, score := 7 }] } :
              KeptQuality GraphRelation)].map keptPair ↔ (1 : ℚ) ≤ p.2)) := by
  exact c3_threshold_partition ⟨⟨1, fun ts => ts.map (fun _ => [1])⟩, 1, 1⟩
    ⟨1, [[1]], [biasRelation]⟩ (fun _ _ _ => ⟨[[7], [0]], [[0], [0]]⟩)
    (fun x => x) "T" ["near", "far"]
    [{ quality := "near", max_score := 7,
       neighbors := [{ relation := biasRelation, score := 7 }] }]
    [{ quality := "far", max_score := 0 }]
    [Effect.consoleStatus "Performing batch vector similarity search:",
     Effect.writeJson "logs/03_vector_similarity_filter_results_T.json",
     Effect.stdoutPrint
       "[INFO] Wrote vector similarity results to logs/03_vector_similarity_filter_results_T.json"]
    [[biasRelation], [biasRelation]] [[7], [0]]
    (by decide) (by decide) (by decide) (by decide) (by decide) (by decide)

/-- Claim C5: both returned lists are non-increasing in `max_score`, and among
items with equal `max_score` the original input order of the qualities is
preserved — for every score value `c`, the equal-score items form a
subsequence of the input-aligned `(quality, max_score)` pairs. -/
theorem c5_sort_invariant (f : SubgraphSimilarityFilter)
    (idx : VectorIndex GraphRelation) (backend : FaissBackend) (sqrt : ℚ → ℚ)
    (created_at : String) (qualities : List Quality)
    (kept : List (KeptQuality GraphRelation)) (dropped : List DroppedQuality)
    (effs : List Effect) (nbrs : List (List GraphRelation))
    (scoresM : List (List ℚ))
    (hfq : f.filter_qualities idx backend sqrt created_at qualities =
      .ok ((kept, dropped), effs))
    (hsb : idx.search_batch backend sqrt
        (f.encoder.encode (qualities.map quality_to_text)) f.top_k =
      .ok (nbrs, scoresM))
    (hne : qualities ≠ [])
    (hlen : scoresM.length = qualities.length)
    (hnbrs : nbrs.length = qualities.length)
    (hrows : ∀ row ∈ scoresM, row ≠ []) :
    kept.Pairwise (fun a b => b.max_score ≤ a.max_score) ∧
    dropped.Pairwise (fun a b => b.max_score ≤ a.max_score) ∧
    (∀ c : ℚ, List.Sublist
      ((kept.filter (fun x => decide (x.max_score = c))).map keptPair)
      (qualities.zip (scoresM.map rowMax))) ∧
    (∀ c : ℚ, List.Sublist
      ((dropped.filter (fun x => decide (x.max_score = c))).map droppedPair)
      (qualities.zip (scoresM.map rowMax))) := by
  obtain ⟨hk, hd⟩ := filter_qualities_ok_elim f idx backend sqrt created_at
    qualities kept dropped effs nbrs scoresM hfq hsb hne
  have hms : computeMaxScores qualities.length scoresM = scoresM.map rowMax :=
    computeMaxScores_eq _ _
      (by
        intro h
        rw [h] at hlen
        exact hne (List.length_eq_zero.mp hlen.symm))
      hrows
  have hzip : (buildRows qualities (computeMaxScores qualities.length scoresM)
      nbrs scoresM).map (fun r => (r.1, r.2.1)) =
      qualities.zip (scoresM.map rowMax) := by
    rw [buildRows_map_pair qualities _ nbrs scoresM
      (by rw [hms, List.length_map, hlen]) hnbrs hlen, hms]
  refine ⟨?_, ?_, ?_, ?_⟩
  · rw [hk]
    exact sortDesc_sorted _ _
  · rw [hd]
    exact sortDesc_sorted _ _
  · intro c
    have hf1 := sortDesc_filter (fun x : KeptQuality GraphRelation => x.max_score)
      (assemble f.threshold (buildRows qualities
        (computeMaxScores qualities.length scoresM) nbrs scoresM)).1 c
    rw [hk, hf1, ← hzip]
    exact ((List.filter_sublist _).map keptPair).trans
      (assemble_kept_sublist f.threshold _)
  · intro c
    have hf2 := sortDesc_filter (fun x : DroppedQuality => x.max_score)
      (assemble f.threshold (buildRows qualities
        (computeMaxScores qualities.length scoresM) nbrs scoresM)).2 c
    rw [hd, hf2, ← hzip]
    exact ((List.filter_sublist _).map droppedPair).trans
      (assemble_dropped_sublist f.threshold _)

/-- Witness for claim C5: a three-quality run with a score tie (`7`, `7`,
`0`); the two tied kept items keep their original input order. -/
theorem c5_sort_invariant_witness :
    ([({ quality := "a", max_score := 7,
         neighbors := [{ relation := biasRelation, score := 7 }] } :
        KeptQuality GraphRelation),
      { quality := "b", max_score := 7,
        neighbors := [{ relation := biasRelation, score := 7 }] }].Pairwise
      (fun a b => b.max_score ≤ a.max_score)) ∧
    ([({ quality := "c", max_score := 0 } : DroppedQuality)].Pairwise
      (fun a b => b.max_score ≤ a.max_score)) ∧
    (∀ c : ℚ, List.Sublist
      (([({ quality := "a", max_score := 7,
            neighbors := [{ relation := biasRelation, score := 7 }] } :
           KeptQuality GraphRelation),
         { quality := "b", max_score := 7,
           neighbors := [{ relation := biasRelation, score := 7 }] }].filter
          (fun x => decide (x.max_score = c))).map keptPair)
      ([("a", (7 : ℚ)), ("b", 7), ("c", 0)])) ∧
    (∀ c : ℚ, List.Sublist
      (([({ quality := "c", max_score := 0 } : DroppedQuality)].filter
          (fun x => decide (x.max_score = c))).map droppedPair)
      ([("a", (7 : ℚ)), ("b", 7), ("c", 0)])) := by
  exact c5_sort_invariant ⟨⟨1, fun ts => ts.map (fun _ => [1])⟩, 1, 1⟩
    ⟨1, [[1]], [biasRelation]⟩ (fun _ _ _ => ⟨[[7], [7], [0]], [[0], [0], [0]]⟩)
    (fun x => x) "T" ["a", "b", "c"]
    [{ quality := "a", max_score := 7,
       neighbors := [{ relation := biasRelation, score := 7 }] },
     { quality := "b", max_score := 7,
       neighbors := [{ relation := biasRelation, score := 7 }] }]
    [{ quality := "c", max_score := 0 }]
    [Effect.consoleStatus "Performing batch vector similarity search:",
     Effect.writeJson "logs/03_vector_similarity_filter_results_T.json",
     Effect.stdoutPrint
       "[INFO] Wrote vector similarity results to logs/03_vector_similarity_filter_results_T.json"]
    [[biasRelation], [biasRelation], [biasRelation]] [[7], [7], [0]]
    (by decide) (by decide) (by decide) (by decide) (by decide) (by decide)

theorem foldl_max_exch : ∀ (t : List ℚ) (x b : ℚ),
    t.foldl max (max x b) = max x (t.foldl max b) := by
  intro t
  induction t with
  | nil => intro x b; rfl
  | cons c t ih =>
    intro x b
    simp only [List.foldl_cons]
    rw [max_assoc, ih]

theorem rowMax_append (l1 l2 : List ℚ) (h1 : l1 ≠ []) (h2 : l2 ≠ []) :
    rowMax (l1 ++ l2) = max (rowMax l1) (rowMax l2) := by
  cases l1 with
  | nil => exact absurd rfl h1
  | cons a t =>
    cases l2 with
    | nil => exact absurd rfl h2
    | cons b t2 =>
      simp only [rowMax, List.cons_append, List.foldl_append, List.foldl_cons]
      exact foldl_max_exch t2 (t.foldl max a) b

theorem foldl_max_zeros : ∀ (t : List ℚ), (∀ y ∈ t, y = 0) → t.foldl max 0 = 0 := by
  intro t
  induction t with
  | nil => intro _; rfl
  | cons y t ih =>
    intro h
    have hy : y = 0 := h y (List.mem_cons_self y t)
    simp only [List.foldl_cons, hy, max_self]
    exact ih (fun z hz => h z (List.mem_cons_of_mem y hz))

theorem rowMax_zeros (l : List ℚ) (h : ∀ x ∈ l, x = 0) (hne : l ≠ []) :
    rowMax l = 0 := by
  cases l with
  | nil => exact absurd rfl hne
  | cons a t =>
    have ha : a = 0 := h a (List.mem_cons_self a t)
    simp only [rowMax, ha]
    exact foldl_max_zeros t (fun z hz => h z (List.mem_cons_of_mem a hz))

theorem foldl_max_le_init : ∀ (t : List ℚ) (x : ℚ), x ≤ t.foldl max x := by
  intro t
  induction t with
  | nil => intro x; exact le_refl x
  | cons b t ih =>
    intro x
    simp only [List.foldl_cons]
    exact le_trans (le_max_left x b) (ih (max x b))

theorem rowMax_nonneg (l : List ℚ) (h : ∀ x ∈ l, 0 ≤ x) (hne : l ≠ []) :
    0 ≤ rowMax l := by
  cases l with
  | nil => exact absurd rfl hne
  | cons a t =>
    exact le_trans (h a (List.mem_cons_self a t)) (foldl_max_le_init t a)

/-- Appending slots that were masked to zero does not change the row maximum
of a non-empty block of non-negative scores. -/
theorem rowMax_append_zeros (l1 l2 : List ℚ) (h1 : l1 ≠ [])
    (hpos : ∀ x ∈ l1, 0 ≤ x) (hz : ∀ x ∈ l2, x = 0) :
    rowMax (l1 ++ l2) = rowMax l1 := by
  cases l2 with
  | nil => rw [List.append_nil]
  | cons b t2 =>
    rw [rowMax_append l1 (b :: t2) h1 (by simp),
      rowMax_zeros (b :: t2) hz (by simp)]
    exact max_eq_left (rowMax_nonneg l1 hpos h1)

/-- Every sentinel-trailing row splits into a valid block followed by a
sentinel block. -/
theorem sentinelsTrail_decomp : ∀ (l : List Int), sentinelsTrail l →
    ∃ v z, l = v ++ z ∧ (∀ x ∈ v, 0 ≤ x) ∧ (∀ x ∈ z, x < 0) := by
  intro l
  induction l with
  | nil => intro _; exact ⟨[], [], rfl, by simp, by simp⟩
  | cons id rest ih =>
    intro htrail
    by_cases hid : id < 0
    · refine ⟨[], id :: rest, rfl, by simp, ?_⟩
      intro x hx
      rcases List.mem_cons.mp hx with rfl | hx
      · exact hid
      · exact htrail.1 hid x hx
    · rcases ih htrail.2 with ⟨v, z, hvz, hv, hz⟩
      exact ⟨id :: v, z, by rw [hvz]; rfl, by
        intro x hx
        rcases List.mem_cons.mp hx with rfl | hx
        · exact le_of_not_lt hid
        · exact hv x hx, hz⟩

/-- For an all-valid in-range block the payload lookup is total: one payload
per ID. -/
theorem validPayloads_length_valid {T : Type} (pl : List T) :
    ∀ (v : List Int), (∀ id ∈ v, 0 ≤ id) →
      (∀ id ∈ v, id.toNat < pl.length) →
      (validPayloads pl v).length = v.length := by
  intro v
  induction v with
  | nil => intro _ _; rfl
  | cons id rest ih =>
    intro h0 hb
    have hid0 := h0 id (List.mem_cons_self id rest)
    have hlt : id.toNat < pl.length := hb id (List.mem_cons_self id rest)
    obtain ⟨p, hp⟩ : ∃ p, pl[id.toNat]? = some p := ⟨_, List.getElem?_eq_getElem hlt⟩
    simp only [validPayloads, List.filterMap_cons, if_neg (not_lt_of_le hid0),
      List.get?_eq_getElem?, hp, List.length_cons]
    have hrest := ih (fun i hi => h0 i (List.mem_cons_of_mem id hi))
      (fun i hi => hb i (List.mem_cons_of_mem id hi))
    simp only [validPayloads, List.get?_eq_getElem?] at hrest
    omega

theorem maskScoresRow_valid : ∀ (v : List Int) (s : List ℚ),
    (∀ id ∈ v, 0 ≤ id) → maskScoresRow v s = s.take v.length := by
  intro v
  induction v with
  | nil => intro s _; simp [maskScoresRow]
  | cons id rest ih =>
    intro s h0
    cases s with
    | nil => simp [maskScoresRow]
    | cons b t =>
      simp only [maskScoresRow, List.zip_cons_cons, List.map_cons,
        if_neg (not_lt_of_le (h0 id (List.mem_cons_self id rest))), List.length_cons,
        List.take_succ_cons]
      rw [← maskScoresRow, ih t (fun i hi => h0 i (List.mem_cons_of_mem id hi))]

theorem maskScoresRow_append : ∀ (v z : List Int) (s : List ℚ),
    maskScoresRow (v ++ z) s =
      maskScoresRow v (s.take v.length) ++ maskScoresRow z (s.drop v.length) := by
  intro v
  induction v with
  | nil => intro z s; simp [maskScoresRow]
  | cons id rest ih =>
    intro z s
    cases s with
    | nil => simp [maskScoresRow]
    | cons b t =>
      simp only [List.cons_append, maskScoresRow, List.zip_cons_cons, List.map_cons,
        List.length_cons, List.take_succ_cons, List.drop_succ_cons]
      rw [← maskScoresRow, ← maskScoresRow, ← maskScoresRow, ih z t]

theorem maskScoresRow_zeros (z : List Int) (s : List ℚ)
    (hz : ∀ id ∈ z, id < 0) : ∀ y ∈ maskScoresRow z s, y = 0 := by
  intro y hy
  rcases List.mem_map.mp hy with ⟨p, hp, hyeq⟩
  have hid : p.1 ∈ z := (List.of_mem_zip hp).1
  rw [← hyeq, if_pos (hz p.1 hid)]

theorem zip_map_snd {α β : Type} : ∀ (n : List α) (s : List β),
    (n.zip s).map Prod.snd = s.take n.length := by
  intro n
  induction n with
  | nil => intro s; simp
  | cons a t ih =>
    intro s
    cases s with
    | nil => simp
    | cons b sb => simp [List.zip_cons_cons, ih]

/-- Each row consumed by the assembly loop is index-aligned with one backend
ID row and one backend score row: its max is the row maximum of the masked
row, its neighbor list holds the valid payloads of the ID row, and its score
row is the masked row. -/
theorem mem_buildRows_structure {T : Type} (pl : List T) :
    ∀ (qs : List Quality) (ids : List (List Int)) (scoresRaw : List (List ℚ))
      (r : Quality × ℚ × List T × List ℚ),
      r ∈ buildRows qs ((maskScores ids scoresRaw).map rowMax)
            (ids.map (validPayloads pl)) (maskScores ids scoresRaw) →
      ∃ irow ∈ ids, ∃ srow ∈ scoresRaw,
        r.2.1 = rowMax (maskScoresRow irow srow) ∧
        r.2.2.1 = validPayloads pl irow ∧
        r.2.2.2 = maskScoresRow irow srow := by
  intro qs
  induction qs with
  | nil =>
    intro ids scoresRaw r hr
    simp [buildRows] at hr
  | cons q0 qs ih =>
    intro ids scoresRaw r hr
    cases ids with
    | nil => simp [buildRows, maskScores] at hr
    | cons i0 is =>
      cases scoresRaw with
      | nil => simp [buildRows, maskScores] at hr
      | cons s0 ss =>
        have hms : maskScores (i0 :: is) (s0 :: ss) =
            maskScoresRow i0 s0 :: maskScores is ss := rfl
        rw [hms] at hr
        simp only [List.map_cons, buildRows, List.zip_cons_cons] at hr
        rcases List.mem_cons.mp hr with rfl | hr
        · exact ⟨i0, List.mem_cons_self i0 is, s0, List.mem_cons_self s0 ss,
            rfl, rfl, rfl⟩
        · have hr2 : r ∈ buildRows qs ((maskScores is ss).map rowMax)
              (is.map (validPayloads pl)) (maskScores is ss) := by
            rw [buildRows]
            exact hr
          rcases ih is ss r hr2 with ⟨irow, hirow, srow, hsrow, h1, h2, h3⟩
          exact ⟨irow, List.mem_cons_of_mem i0 hirow, srow,
            List.mem_cons_of_mem s0 hsrow, h1, h2, h3⟩

/-- The payload lookup restricted to valid IDs. -/
theorem validPayloads_filter {T : Type} (pl : List T) :
    ∀ (irow : List Int),
      validPayloads pl irow =
        (irow.filter (fun id => decide (0 ≤ id))).filterMap
          (fun id => pl.get? id.toNat) := by
  intro irow
  induction irow with
  | nil => rfl
  | cons id rest ih =>
    by_cases hid : id < 0
    · simp only [validPayloads, List.filterMap_cons, if_pos hid, List.filter_cons,
        decide_eq_true_eq, if_neg (not_le_of_lt hid)]
      exact ih
    · simp only [validPayloads, List.filterMap_cons, if_neg hid, List.filter_cons,
        decide_eq_true_eq, if_pos (le_of_not_lt hid), List.filterMap_cons]
      rw [← validPayloads, ih]

/-- Distinct in-range valid IDs give at most one payload per stored entry, so
each neighbor list is bounded by the number of indexed payloads. -/
theorem validPayloads_length_le_payloads {T : Type} (pl : List T)
    (irow : List Int)
    (hbound : ∀ id ∈ irow, 0 ≤ id → id.toNat < pl.length)
    (hnodup : (irow.filter (fun id => decide (0 ≤ id))).Nodup) :
    (validPayloads pl irow).length ≤ pl.length := by
  have h1 : (validPayloads pl irow).length ≤
      (irow.filter (fun id => decide (0 ≤ id))).length := by
    rw [validPayloads_filter]
    exact List.length_filterMap_le _ _
  have hmap : ((irow.filter (fun id => decide (0 ≤ id))).map Int.toNat).Nodup := by
    refine List.Nodup.map_on ?_ hnodup
    intro x hx y hy hxy
    have hx0 : (0 : Int) ≤ x := by simpa using (List.mem_filter.mp hx).2
    have hy0 : (0 : Int) ≤ y := by simpa using (List.mem_filter.mp hy).2
    omega
  have hsub : ((irow.filter (fun id => decide (0 ≤ id))).map Int.toNat) ⊆
      List.range pl.length := by
    intro x hx
    rcases List.mem_map.mp hx with ⟨id, hid, rfl⟩
    have hid0 : (0 : Int) ≤ id := by simpa using (List.mem_filter.mp hid).2
    exact List.mem_range.mpr (hbound id (List.mem_of_mem_filter hid) hid0)
  have h2 := (List.subperm_of_subset hmap hsub).length_le
  simp only [List.length_map, List.length_range] at h2
  exact le_trans h1 h2

theorem validPayloads_length_le_row {T : Type} (pl : List T) (irow : List Int) :
    (validPayloads pl irow).length ≤ irow.length :=
  List.length_filterMap_le _ _

/-- Claim C9: every `KeptQuality` has `max_score >= threshold`; when its
neighbor list is non-empty, `max_score` equals the maximum neighbor score;
and the neighbor list length is bounded by `min(top_k, number of indexed
relations)`.  Stated under the documented backend contract (rows of length
`k`, valid labels before sentinels, distinct in-range valid labels,
non-negative similarity scores as documented for `NeighborHit`). -/
theorem c9_kept_quality_invariants (f : SubgraphSimilarityFilter)
    (idx : VectorIndex GraphRelation) (backend : FaissBackend) (sqrt : ℚ → ℚ)
    (created_at : String) (qualities : List Quality)
    (kept : List (KeptQuality GraphRelation)) (dropped : List DroppedQuality)
    (effs : List Effect) (ids : List (List Int)) (scoresRaw : List (List ℚ))
    (hfq : f.filter_qualities idx backend sqrt created_at qualities =
      .ok ((kept, dropped), effs))
    (hsb : idx.search_batch backend sqrt
        (f.encoder.encode (qualities.map quality_to_text)) f.top_k =
      .ok (ids.map (validPayloads idx.payloads), maskScores ids scoresRaw))
    (hne : qualities ≠ [])
    (hk : 0 < f.top_k)
    (hids_rows : ∀ row ∈ ids, row.length = f.top_k.toNat)
    (hscr_rows : ∀ row ∈ scoresRaw, row.length = f.top_k.toNat)
    (htrail : ∀ row ∈ ids, sentinelsTrail row)
    (hbound : ∀ row ∈ ids, ∀ id ∈ row, 0 ≤ id → id.toNat < idx.payloads.length)
    (hnodup : ∀ row ∈ ids, (row.filter (fun id => decide (0 ≤ id))).Nodup)
    (hnonneg : ∀ row ∈ scoresRaw, ∀ x ∈ row, 0 ≤ x) :
    ∀ x ∈ kept,
      f.threshold ≤ x.max_score ∧
      (x.neighbors ≠ [] →
        x.max_score = rowMax (x.neighbors.map NeighborHit.score)) ∧
      x.neighbors.length ≤ min f.top_k.toNat idx.payloads.length := by
  obtain ⟨hkp, _⟩ := filter_qualities_ok_elim f idx backend sqrt created_at
    qualities kept dropped effs _ _ hfq hsb hne
  intro x hx
  rw [hkp] at hx
  have hx2 := (sortDesc_mem _ _ x).mp hx
  rcases assemble_kept_mem _ _ x hx2 with ⟨r, hr, hlt, hxeq⟩
  have hktn : 0 < f.top_k.toNat := by omega
  by_cases hM : maskScores ids scoresRaw = []
  · exfalso
    rw [hM] at hr
    simp [buildRows] at hr
  · have hMrows : ∀ row ∈ maskScores ids scoresRaw, row ≠ [] := by
      intro row hrow
      rcases maskScores_mem_structure _ _ row hrow with ⟨irow, hi, srow, hs, hrw⟩
      rw [hrw]
      intro hemp
      have hlen := maskScoresRow_length irow srow
      rw [hemp, hids_rows irow hi, hscr_rows srow hs] at hlen
      simp at hlen
      omega
    have hms : computeMaxScores qualities.length (maskScores ids scoresRaw) =
        (maskScores ids scoresRaw).map rowMax :=
      computeMaxScores_eq _ _ hM hMrows
    rw [hms] at hr
    rcases mem_buildRows_structure idx.payloads qualities ids scoresRaw r hr with
      ⟨irow, hirow, srow, hsrow, h1, h2, h3⟩
    subst hxeq
    simp only
    rcases sentinelsTrail_decomp irow (htrail irow hirow) with ⟨v, z, hvz, hv, hz⟩
    have hvbound : ∀ id ∈ v, id.toNat < idx.payloads.length := by
      intro id hid
      refine hbound irow hirow id ?_ (hv id hid)
      rw [hvz]
      exact List.mem_append_left z hid
    have hvalid_eq : validPayloads idx.payloads irow = validPayloads idx.payloads v := by
      rw [hvz]
      unfold validPayloads
      rw [List.filterMap_append]
      rw [show List.filterMap _ z = validPayloads idx.payloads z from rfl,
        validPayloads_allNeg idx.payloads z hz, List.append_nil]
    have hlen_valid : (validPayloads idx.payloads v).length = v.length :=
      validPayloads_length_valid idx.payloads v hv hvbound
    have hv_le : v.length ≤ srow.length := by
      have hvi : v.length ≤ irow.length := by
        rw [hvz, List.length_append]
        omega
      rw [hscr_rows srow hsrow]
      rw [hids_rows irow hirow] at hvi
      exact hvi
    have hmask_eq : maskScoresRow irow srow =
        srow.take v.length ++ maskScoresRow z (srow.drop v.length) := by
      rw [hvz, maskScoresRow_append v z srow, maskScoresRow_valid v _ hv,
        List.take_take, min_self]
    have hz2 : ∀ y ∈ maskScoresRow z (srow.drop v.length), y = 0 :=
      maskScoresRow_zeros z _ hz
    have hs1len : (srow.take v.length).length = v.length := by
      rw [List.length_take]
      exact min_eq_left hv_le
    have hs1pos : ∀ y ∈ srow.take v.length, 0 ≤ y := by
      intro y hy
      exact hnonneg srow hsrow y ((List.take_sublist _ _).subset hy)
    refine ⟨le_of_not_lt hlt, ?_, ?_⟩
    · intro hnn
      have hvne : v ≠ [] := by
        intro hveq
        apply hnn
        rw [h2, hvalid_eq, hveq]
        rfl
      have hs1ne : srow.take v.length ≠ [] := by
        intro hs1eq
        rw [hs1eq] at hs1len
        exact hvne (List.length_eq_zero.mp hs1len.symm)
      have hscore : (((r.2.2.1.zip r.2.2.2).map
          (fun p => (⟨p.1, p.2⟩ : NeighborHit GraphRelation))).map
            NeighborHit.score) = r.2.2.2.take r.2.2.1.length := by
        rw [List.map_map]
        exact zip_map_snd r.2.2.1 r.2.2.2
      rw [hscore, h1, h2, h3, hvalid_eq, hlen_valid, hmask_eq]
      rw [List.take_append_of_le_length (by rw [hs1len]), List.take_take, min_self]
      exact rowMax_append_zeros _ _ hs1ne hs1pos hz2
    · rw [h2, h3, List.length_map, List.length_zip]
      refine le_trans (min_le_left _ _) (le_min ?_ ?_)
      · rw [← hids_rows irow hirow]
        exact validPayloads_length_le_row idx.payloads irow
      · exact validPayloads_length_le_payloads idx.payloads irow
          (hbound irow hirow) (hnodup irow hirow)

/-- Witness for claim C9: an under-filled search (`top_k = 2`, one indexed
relation); the kept quality has one neighbor, its max equals the neighbor
score, and the neighbor count respects `min(top_k, index size) = 1`. -/
theorem c9_kept_quality_invariants_witness :
    (1 : ℚ) ≤ ({ quality := "q", max_score := 7,
                 neighbors := [{ relation := biasRelation, score := 7 }] } :
                KeptQuality GraphRelation).max_score ∧
    ({ quality := "q", max_score := 7,
       neighbors := [{ relation := biasRelation, score := 7 }] } :
      KeptQuality GraphRelation).max_score =
      rowMax (({ quality := "q", max_score := 7,
                 neighbors := [{ relation := biasRelation, score := 7 }] } :
                KeptQuality GraphRelation).neighbors.map NeighborHit.score) ∧
    ({ quality := "q", max_score := 7,
       neighbors := [{ relation := biasRelation, score := 7 }] } :
      KeptQuality GraphRelation).neighbors.length ≤ min 2 1 := by
  have h := c9_kept_quality_invariants ⟨⟨1, fun ts => ts.map (fun _ => [1])⟩, 2, 1⟩
    ⟨1, [[1]], [biasRelation]⟩ (fun _ _ _ => ⟨[[7, 3]], [[0, -1]]⟩)
    (fun x => x) "T" ["q"]
    [{ quality := "q", max_score := 7,
       neighbors := [{ relation := biasRelation, score := 7 }] }]
    []
    [Effect.consoleStatus "Performing batch vector similarity search:",
     Effect.writeJson "logs/03_vector_similarity_filter_results_T.json",
     Effect.stdoutPrint
       "[INFO] Wrote vector similarity results to logs/03_vector_similarity_filter_results_T.json"]
    [[0, -1]] [[7, 3]]
    (by decide) (by decide) (by decide) (by decide) (by decide) (by decide)
    (by decide) (by decide) (by decide) (by decide)
    { quality := "q", max_score := 7,
      neighbors := [{ relation := biasRelation, score := 7 }] }
    (by decide)
  exact ⟨h.1, h.2.1 (by decide), h.2.2⟩
